import Mathlib

/-!
# example_cc: a key-value chaincode over a ledger stub

A shallow embedding of `example_cc.go` (package `main`): the handlers `Init`, `Invoke`,
`move`, `write`, `read`, `storeFactor`, `getFactor`, `delete` and `query`, together with
models of the library entry points they call (`strconv.Atoi`, `strconv.Itoa`,
`json.Unmarshal`, the shim's `GetState` / `PutState` / `DelState`, `shim.Success` /
`shim.Error`).

Conventions.
* A Go `string` and a Go `[]byte` are both rendered as a Lean `String`; a `[]byte` that may be
  `nil` is an `Option String` with `none` for `nil`.
* A Go `int` is a Lean `Int` kept inside the 64-bit two's complement range by `wrapInt`.
-/

namespace ExampleCC

/-! ## Machine integers -/

/-- The smallest Go `int` on a 64-bit platform. -/
def minInt : Int := -9223372036854775808

/-- The largest Go `int` on a 64-bit platform. -/
def maxInt : Int := 9223372036854775807

/-- Membership in the range of a 64-bit Go `int`. -/
def inIntRange (z : Int) : Prop := minInt ≤ z ∧ z ≤ maxInt

instance (z : Int) : Decidable (inIntRange z) := by
  unfold inIntRange; exact inferInstance

/-- Two's complement wrap-around of a mathematical integer to a 64-bit Go `int`. -/
def wrapInt (z : Int) : Int := (z + 9223372036854775808) % 18446744073709551616 - 9223372036854775808

/-! ## strconv -/

/-- The two error kinds of `strconv.NumError`. -/
inductive NumError where
  | ErrSyntax
  | ErrRange
  deriving DecidableEq

/-- Test `'0' <= c && c <= '9'` on a byte. -/
def isDigit (c : Char) : Bool := decide (48 ≤ c.toNat) && decide (c.toNat ≤ 57)

/-- The value `c - '0'` of a digit byte. -/
def digitVal (c : Char) : Nat := c.toNat - 48

/-- The digit loop of the fast path of `strconv.Atoi`: `n = n*10 + int(ch)`, giving up with a
syntax error at the first byte outside `'0'..'9'`. The fast path runs on fewer than 19 bytes, so
the accumulator stays below `10^18` and never leaves the `int` range. -/
def atoiFastLoop : List Char → Nat → Option Nat
  | [], n => some n
  | c :: cs, n => if isDigit c then atoiFastLoop cs (n * 10 + digitVal c) else none

/-- The largest `uint64`. -/
def maxUint64 : Nat := 18446744073709551615

/-- The digit loop of `strconv.ParseUint(s, 10, 64)`. A byte that is not a decimal digit (letters
included, whose digit value is at least the base) is a syntax error with value 0; an accumulator
that would leave the `uint64` range is a range error with value `maxUint64`, reported as soon as it
is met, before the remaining bytes are looked at. -/
def parseUintLoop : List Char → Nat → Nat × Option NumError
  | [], n => (n, none)
  | c :: cs, n =>
    if isDigit c then
      if n ≥ maxUint64 / 10 + 1 then (maxUint64, some NumError.ErrRange)
      else
        let n1 := n * 10 + digitVal c
        if n1 > maxUint64 then (maxUint64, some NumError.ErrRange)
        else parseUintLoop cs n1
    else (0, some NumError.ErrSyntax)

/-- `strconv.ParseUint(s, 10, 64)` on the bytes of `s`: the empty string is a syntax error. -/
def ParseUint (s : List Char) : Nat × Option NumError :=
  match s with
  | [] => (0, some NumError.ErrSyntax)
  | _ => parseUintLoop s 0

/-- `strconv.ParseInt(s, 10, 0)` on the bytes of `s`: an optional sign, then `ParseUint`; a
magnitude outside the `int64` range is a range error whose value is the nearest bound. -/
def ParseInt (s : List Char) : Int × Option NumError :=
  match s with
  | [] => (0, some NumError.ErrSyntax)
  | c :: cs =>
    let neg := c = '-'
    let body := if c = '+' ∨ c = '-' then cs else c :: cs
    match ParseUint body with
    | (_, some NumError.ErrSyntax) => (0, some NumError.ErrSyntax)
    | (un, _) =>
      if ¬ neg ∧ un ≥ 9223372036854775808 then (maxInt, some NumError.ErrRange)
      else if neg ∧ un > 9223372036854775808 then (minInt, some NumError.ErrRange)
      else (if neg then - (un : Int) else (un : Int), none)

/-- Modelled from the spec: `strconv.Atoi` belongs to the Go standard library, not to this
repository; the spec calls it parsing "as base-10 integers". The model follows the library
routine: strings of 1 to 18 bytes take the fast path (optional sign, then digits only), all
others go through `ParseInt(s, 10, 0)`. The result is the pair `(value, err)` that Go returns;
`none` stands for a `nil` error. -/
def atoiChars (s : List Char) : Int × Option NumError :=
  if 0 < s.length ∧ s.length < 19 then
    match s with
    | [] => (0, some NumError.ErrSyntax)
    | c :: cs =>
      let body := if c = '-' ∨ c = '+' then cs else c :: cs
      if body.length < 1 then (0, some NumError.ErrSyntax)
      else
        match atoiFastLoop body 0 with
        | none => (0, some NumError.ErrSyntax)
        | some n => (if c = '-' then - (n : Int) else (n : Int), none)
  else ParseInt s

/-- The function `strconv.Atoi` on a Go string. -/
def Atoi (s : String) : Int × Option NumError := atoiChars s.data

/-- The byte of a decimal digit. -/
def digitChar (d : Nat) : Char :=
  match d with
  | 0 => '0' | 1 => '1' | 2 => '2' | 3 => '3' | 4 => '4'
  | 5 => '5' | 6 => '6' | 7 => '7' | 8 => '8' | _ => '9'

/-- Decimal digits of `n`, most significant first, pushed in front of `acc`; `fuel` bounds the
number of digits produced. -/
def natDigits : Nat → Nat → List Char → List Char
  | 0, _, acc => acc
  | fuel + 1, n, acc =>
    if n / 10 = 0 then digitChar (n % 10) :: acc
    else natDigits fuel (n / 10) (digitChar (n % 10) :: acc)

/-- Bytes of `strconv.Itoa(i)`: a minus sign for negative numbers, then the decimal digits of the
magnitude without leading zeros. An `int` has at most 19 digits. -/
def itoaChars (i : Int) : List Char :=
  if i < 0 then '-' :: natDigits 20 i.natAbs [] else natDigits 20 i.natAbs []

/-- Modelled from the spec: `strconv.Itoa` belongs to the Go standard library, not to this
repository; the spec calls its result the "decimal string encoding" of the integer. -/
def Itoa (i : Int) : String := String.mk (itoaChars i)

/-! ## The shim: responses and the ledger stub -/

/-- The message `pb.Response`: a status code, an error message and a payload (`none` is `nil`). -/
structure Response where
  Status : Nat
  Message : String
  Payload : Option String
  deriving DecidableEq

namespace shim

/-- The status code of a successful response. -/
def OK : Nat := 200

/-- The status code of a failed response. -/
def ERROR : Nat := 500

/-- The constructor `shim.Success(payload)`. -/
def Success (payload : Option String) : Response :=
  { Status := OK, Message := "", Payload := payload }

/-- The constructor `shim.Error(msg)`. -/
def Error (msg : String) : Response :=
  { Status := ERROR, Message := msg, Payload := none }

end shim

/-- One call made to the ledger through the stub. -/
inductive LedgerCall where
  | get (key : String)
  | put (key : String) (value : String)
  | del (key : String)
  deriving DecidableEq

/-- Modelled from the spec: the stub `shim.ChaincodeStubInterface` is provided by the Fabric shim,
not by this repository. Following the spec's Ledger Accessor (`get(key) -> optional bytes`,
`put(key, bytes)`, `delete(key)`, each immediately visible to the same invocation, each of which
may fail with a storage error) the stub carries
* `Args`: the string arguments of the invocation, function name first;
* `State`: the world state, `none` for an absent key;
* `fault`: the storage error, if any, that the ledger call number `n` of the invocation reports;
* `calls`: the ledger calls issued so far, oldest first. -/
structure ChaincodeStub where
  Args : List String
  State : String → Option String
  fault : Nat → Option String
  calls : List LedgerCall

namespace ChaincodeStub

/-- The storage error reported by the next ledger call, if any. -/
def nextFault (stub : ChaincodeStub) : Option String := stub.fault stub.calls.length

/-- The method `stub.GetFunctionAndParameters()`: the first string argument is the function
name, the others are its parameters; with no argument at all the name is empty. -/
def GetFunctionAndParameters (stub : ChaincodeStub) : String × List String :=
  match stub.Args with
  | [] => ("", [])
  | function :: params => (function, params)

/-- The method `stub.GetState(key)`: the stored bytes (`none` for an absent key), or a storage
error; the world state is not changed. -/
def GetState (stub : ChaincodeStub) (key : String) :
    Except String (Option String) × ChaincodeStub :=
  let stub1 := { stub with calls := stub.calls ++ [LedgerCall.get key] }
  match stub.nextFault with
  | some e => (Except.error e, stub1)
  | none => (Except.ok (stub.State key), stub1)

/-- The method `stub.PutState(key, value)`: binds `key` to `value`, or reports a storage error
(`none` is a `nil` error) and leaves the world state as it was. -/
def PutState (stub : ChaincodeStub) (key : String) (value : String) :
    Option String × ChaincodeStub :=
  match stub.nextFault with
  | some e => (some e, { stub with calls := stub.calls ++ [LedgerCall.put key value] })
  | none =>
    (none, { stub with
      State := fun k => if k = key then some value else stub.State k
      calls := stub.calls ++ [LedgerCall.put key value] })

/-- The method `stub.DelState(key)`: removes `key`, or reports a storage error and leaves the
world state as it was. -/
def DelState (stub : ChaincodeStub) (key : String) : Option String × ChaincodeStub :=
  match stub.nextFault with
  | some e => (some e, { stub with calls := stub.calls ++ [LedgerCall.del key] })
  | none =>
    (none, { stub with
      State := fun k => if k = key then none else stub.State k
      calls := stub.calls ++ [LedgerCall.del key] })

end ChaincodeStub

open ChaincodeStub

/-! ## The chaincode

Log lines (`logger.Info`, `fmt.Println`) have no effect on the response or on the ledger and are
left out. -/

/-- The record `Factor`; its field `Type` is spelled `Type_`. -/
structure Factor where
  Address : String
  Email : String
  Type_ : String
  Payload : List String
  deriving DecidableEq

/-- The zero value `Factor{}`. -/
def Factor.zero : Factor := { Address := "", Email := "", Type_ := "", Payload := [] }

/-- The type of `json.Unmarshal(data, &factor)` as the handlers use it: from the bytes and the
record passed by reference to the record left behind and the error returned. The decoder belongs
to the Go standard library; the handlers take it as a parameter, and `json.Unmarshal` below is
the model of the library's decoder. -/
abbrev Unmarshal := String → Factor → Factor × Option String

/-- How a call of `Init` or `Invoke` ends: with a response, or with a run-time panic of an index
expression `args[i]` out of range. -/
inductive Outcome where
  | returned (r : Response)
  | panicked (index : Nat) (length : Nat)
  deriving DecidableEq

/-- The method `Init`: reads `args[0]` to `args[3]` in turn, without a check of `len(args)`. -/
def Init (stub : ChaincodeStub) : Outcome × ChaincodeStub :=
  let args := stub.GetFunctionAndParameters.2
  match args[0]? with
  | none => (Outcome.panicked 0 args.length, stub)
  | some A =>
    match args[1]? with
    | none => (Outcome.panicked 1 args.length, stub)
    | some a =>
      match Atoi a with
      | (_, some _) =>
        (Outcome.returned (shim.Error "Expecting integer value for asset holding"), stub)
      | (Aval, none) =>
        match args[2]? with
        | none => (Outcome.panicked 2 args.length, stub)
        | some B =>
          match args[3]? with
          | none => (Outcome.panicked 3 args.length, stub)
          | some b =>
            match Atoi b with
            | (_, some _) =>
              (Outcome.returned (shim.Error "Expecting integer value for asset holding"), stub)
            | (Bval, none) =>
              match stub.PutState A (Itoa Aval) with
              | (some e, s1) => (Outcome.returned (shim.Error e), s1)
              | (none, s1) =>
                match s1.PutState B (Itoa Bval) with
                | (some e, s2) => (Outcome.returned (shim.Error e), s2)
                | (none, s2) => (Outcome.returned (shim.Success none), s2)

/-- The method `move`: a payment of `X` units from `A` to `B`. The errors of the two `Atoi`
calls on the stored balances are dropped (`Aval, _ = ...`); only the amount is checked. -/
def move (stub : ChaincodeStub) (args : List String) : Response × ChaincodeStub :=
  match args with
  | [A, B, amount] =>
    match stub.GetState A with
    | (Except.error _, s1) => (shim.Error "Failed to get state", s1)
    | (Except.ok none, s1) => (shim.Error "Entity not found", s1)
    | (Except.ok (some Avalbytes), s1) =>
      let Aval := (Atoi Avalbytes).1
      match s1.GetState B with
      | (Except.error _, s2) => (shim.Error "Failed to get state", s2)
      | (Except.ok none, s2) => (shim.Error "Entity not found", s2)
      | (Except.ok (some Bvalbytes), s2) =>
        let Bval := (Atoi Bvalbytes).1
        match Atoi amount with
        | (_, some _) =>
          (shim.Error "Invalid transaction amount, expecting a integer value", s2)
        | (X, none) =>
          let Aval1 := wrapInt (Aval - X)
          let Bval1 := wrapInt (Bval + X)
          match s2.PutState A (Itoa Aval1) with
          | (some e, s3) => (shim.Error e, s3)
          | (none, s3) =>
            match s3.PutState B (Itoa Bval1) with
            | (some e, s4) => (shim.Error e, s4)
            | (none, s4) => (shim.Success none, s4)
  | _ =>
    (shim.Error
      "Incorrect number of arguments. Expecting 4, function followed by 2 names and 1 value",
      stub)

/-- The method `write`: binds `key` to the bytes of `value`. -/
def write (stub : ChaincodeStub) (args : List String) : Response × ChaincodeStub :=
  match args with
  | [key, value] =>
    match stub.PutState key value with
    | (some e, s1) => (shim.Error e, s1)
    | (none, s1) => (shim.Success none, s1)
  | _ =>
    (shim.Error
      "Incorrect number of arguments. Expecting 3, function followed by 1 key and 1 value",
      stub)

/-- The method `read`: the bytes stored under `key`. -/
def read (stub : ChaincodeStub) (args : List String) : Response × ChaincodeStub :=
  match args with
  | [key] =>
    match stub.GetState key with
    | (Except.error _, s1) => (shim.Error "Failed to get state", s1)
    | (Except.ok none, s1) => (shim.Error "Entity not found", s1)
    | (Except.ok (some valbytes), s1) => (shim.Success (some valbytes), s1)
  | _ =>
    (shim.Error "Incorrect number of arguments. Expecting 2, function followed by 1 key", stub)

/-- The method `storeFactor`: stores the argument bytes under the address of the record that
`json.Unmarshal` leaves in `factor`; the error of `json.Unmarshal` is dropped. -/
def storeFactor (unmarshal : Unmarshal) (stub : ChaincodeStub) (args : List String) :
    Response × ChaincodeStub :=
  match args with
  | [arg] =>
    let factorAsBytes := arg
    let factor := (unmarshal factorAsBytes Factor.zero).1
    match stub.PutState factor.Address factorAsBytes with
    | (some e, s1) => (shim.Error e, s1)
    | (none, s1) => (shim.Success none, s1)
  | _ =>
    (shim.Error
      "Incorrect number of arguments. Expecting 2, function followed by the factor data", stub)

/-- The method `getFactor`: the bytes stored under `address`. The record decoded from them by
`json.Unmarshal` reaches the log lines only, so the decoder does not appear here. -/
def getFactor (stub : ChaincodeStub) (args : List String) : Response × ChaincodeStub :=
  match args with
  | [address] =>
    match stub.GetState address with
    | (Except.error _, s1) => (shim.Error "Failed to get state", s1)
    | (Except.ok none, s1) => (shim.Error "Entity not found", s1)
    | (Except.ok (some factorAsBytes), s1) => (shim.Success (some factorAsBytes), s1)
  | _ =>
    (shim.Error "Incorrect number of arguments. Expecting 2, function followed by 1 address",
      stub)

/-- The method `delete`: removes an entity from the state. -/
def delete (stub : ChaincodeStub) (args : List String) : Response × ChaincodeStub :=
  match args with
  | [A] =>
    match stub.DelState A with
    | (some _, s1) => (shim.Error "Failed to delete state", s1)
    | (none, s1) => (shim.Success none, s1)
  | _ => (shim.Error "Incorrect number of arguments. Expecting 1", stub)

/-- The method `query`: the bytes stored under `A`; the JSON summary `jsonResp` of the success
path reaches the log only. -/
def query (stub : ChaincodeStub) (args : List String) : Response × ChaincodeStub :=
  match args with
  | [A] =>
    match stub.GetState A with
    | (Except.error _, s1) =>
      (shim.Error ("\x7b\"Error\":\"Failed to get state for " ++ A ++ "\"\x7d"), s1)
    | (Except.ok none, s1) =>
      (shim.Error ("\x7b\"Error\":\"Nil amount for " ++ A ++ "\"\x7d"), s1)
    | (Except.ok (some Avalbytes), s1) => (shim.Success (some Avalbytes), s1)
  | _ => (shim.Error "Incorrect number of arguments. Expecting name of the person to query", stub)

/-- The text of the unknown-action error of `Invoke`, before the value of `args[0]`. -/
def unknownAction : String :=
  "Unknown action, check the first argument, must be one of 'delete', 'query', or 'move'. But got: "

/-- Wraps the result of a handler as the outcome of `Invoke`. -/
def returns (r : Response × ChaincodeStub) : Outcome × ChaincodeStub :=
  (Outcome.returned r.1, r.2)

/-- The method `Invoke`: dispatch on the function name; for an unknown name the error message is
built from `args[0]`. -/
def Invoke (unmarshal : Unmarshal) (stub : ChaincodeStub) : Outcome × ChaincodeStub :=
  let function := stub.GetFunctionAndParameters.1
  let args := stub.GetFunctionAndParameters.2
  if function = "delete" then returns (delete stub args)
  else if function = "query" then returns (query stub args)
  else if function = "move" then returns (move stub args)
  else if function = "write" then returns (write stub args)
  else if function = "read" then returns (read stub args)
  else if function = "storeFactor" then returns (storeFactor unmarshal stub args)
  else if function = "getFactor" then returns (getFactor stub args)
  else
    match args[0]? with
    | none => (Outcome.panicked 0 args.length, stub)
    | some arg0 => (Outcome.returned (shim.Error (unknownAction ++ arg0)), stub)

/-- A ledger holding the two accounts `a` and `b`, on which no call fails. -/
def sampleStub (a b : String) : ChaincodeStub :=
  { Args := []
    State := fun k => if k = "a" then some a else if k = "b" then some b else none
    fault := fun _ => none
    calls := [] }

/-- The next `n` ledger calls made through the stub report no storage error. -/
def ChaincodeStub.succeeds (stub : ChaincodeStub) (n : Nat) : Prop :=
  ∀ i, i < n → stub.fault (stub.calls.length + i) = none

/-- The JSON text of a factor record with address `X`. -/
def sampleFactorJSON : String :=
  "\x7b\"address\":\"X\",\"email\":\"e\",\"type\":\"pin\",\"payload\":[\"1\"]\x7d"

/-- A stand-in for `json.Unmarshal` that knows one input: it decodes `sampleFactorJSON` and
reports an error on anything else, leaving the record as it was. -/
def sampleUnmarshal : Unmarshal := fun data factor =>
  if data = sampleFactorJSON then
    ({ Address := "X", Email := "e", Type_ := "pin", Payload := ["1"] }, none)
  else (factor, some "invalid character")

/-- An empty ledger on which no call fails, for an invocation of the function `function` with
the parameters `args`. -/
def emptyStub (function : String) (args : List String) : ChaincodeStub :=
  { Args := function :: args
    State := fun _ => none
    fault := fun _ => none
    calls := [] }

/-- The number read from a string of decimal digits, continuing from the accumulator `a`. -/
def decVal : List Char → Nat → Nat
  | [], a => a
  | c :: cs, a => decVal cs (a * 10 + digitVal c)

/-- Every byte of the list is a decimal digit. -/
def allDigits (l : List Char) : Prop := ∀ c ∈ l, isDigit c = true

/-- A ledger holding the two accounts `a` and `b` for an invocation with the arguments `args`, on
which the ledger call number `n` fails with the storage error `e` and every other call
succeeds. -/
def faultyStub (n : Nat) (e : String) (args : List String) (a b : String) : ChaincodeStub :=
  { Args := args
    State := fun k => if k = "a" then some a else if k = "b" then some b else none
    fault := fun i => if i = n then some e else none
    calls := [] }

/-- A base-10 integer, syntactically: an optional sign followed by one or more decimal
digits. -/
def isDecimal (s : String) : Bool :=
  match s.data with
  | [] => false
  | c :: cs =>
    if c = '-' ∨ c = '+' then !cs.isEmpty && cs.all isDigit else (c :: cs).all isDigit

/-- A valid base-10 integer encoding of an `int`: a string that `strconv.Atoi` accepts. -/
def validEncoding (s : String) : Prop := (Atoi s).2 = none

instance (s : String) : Decidable (validEncoding s) := by
  unfold validEncoding; exact inferInstance

/-- Every present key of the world state holds a valid base-10 integer encoding. -/
def balancesValid (state : String → Option String) : Prop :=
  ∀ k v, state k = some v → validEncoding v

/-! ## encoding/json

A model of `json.Unmarshal(data, &factor)` of the Go standard library for the one target type
the chaincode decodes into, the record `Factor`. As in the library, the bytes are first checked
to be one well-formed JSON text (`checkValid`); only then is the value decoded into the record,
and a member whose JSON type does not fit its field is skipped, the first such mismatch kept as
the error to return, and decoding goes on with the next member. -/

namespace json

/-- The tokens of a JSON text; a string token carries its unquoted text. -/
inductive Token where
  | beginObject
  | endObject
  | beginArray
  | endArray
  | colon
  | comma
  | str (s : String)
  | number
  | bool
  | null
  deriving DecidableEq

/-- JSON white space: space, tab, carriage return, line feed. -/
def isSpace (c : Char) : Bool := decide (c = ' ' ∨ c = '\t' ∨ c = '\r' ∨ c = '\n')

/-- Drops leading white space. -/
def skipSpace : List Char → List Char
  | [] => []
  | c :: cs => if isSpace c then skipSpace cs else c :: cs

/-- A hexadecimal digit. -/
def isHex (c : Char) : Bool :=
  isDigit c || decide (97 ≤ c.toNat ∧ c.toNat ≤ 102) || decide (65 ≤ c.toNat ∧ c.toNat ≤ 70)

/-- The value of a hexadecimal digit. -/
def hexVal (c : Char) : Nat :=
  if isDigit c then c.toNat - 48 else if 97 ≤ c.toNat then c.toNat - 87 else c.toNat - 55

/-- The number written by four hexadecimal digits. -/
def hex4 (a b c d : Char) : Nat := ((hexVal a * 16 + hexVal b) * 16 + hexVal c) * 16 + hexVal d

/-- The replacement character U+FFFD. -/
def replacementChar : Char := Char.ofNat 65533

/-- Scans a string literal after its opening quote: the unquoted text (collected in reverse in
`acc`) and the input after the closing quote. Control characters and unknown escapes are
errors; `\uXXXX` gives the code point, a surrogate pair gives the code point it encodes, and a
surrogate without its partner gives U+FFFD. Every step consumes input, so a `fuel` of the
length of the input plus one is always enough. -/
def scanString : Nat → List Char → List Char → Option (List Char × List Char)
  | 0, _, _ => none
  | _ + 1, [], _ => none
  | fuel + 1, c :: rest, acc =>
    if c = '"' then some (acc.reverse, rest)
    else if c = '\\' then
      match rest with
      | [] => none
      | e :: rest1 =>
        if e = '"' ∨ e = '\\' ∨ e = '/' then scanString fuel rest1 (e :: acc)
        else if e = 'b' then scanString fuel rest1 (Char.ofNat 8 :: acc)
        else if e = 'f' then scanString fuel rest1 (Char.ofNat 12 :: acc)
        else if e = 'n' then scanString fuel rest1 ('\n' :: acc)
        else if e = 'r' then scanString fuel rest1 ('\r' :: acc)
        else if e = 't' then scanString fuel rest1 ('\t' :: acc)
        else if e = 'u' then
          match rest1 with
          | h1 :: h2 :: h3 :: h4 :: rest2 =>
            if isHex h1 && isHex h2 && isHex h3 && isHex h4 then
              let u := hex4 h1 h2 h3 h4
              if 55296 ≤ u ∧ u < 57344 then
                match rest2 with
                | b :: v :: k1 :: k2 :: k3 :: k4 :: rest3 =>
                  if b = '\\' ∧ v = 'u' ∧ (isHex k1 && isHex k2 && isHex k3 && isHex k4) = true
                      ∧ u < 56320 ∧ 56320 ≤ hex4 k1 k2 k3 k4 ∧ hex4 k1 k2 k3 k4 < 57344 then
                    scanString fuel rest3
                      (Char.ofNat (65536 + (u - 55296) * 1024 + (hex4 k1 k2 k3 k4 - 56320))
                        :: acc)
                  else scanString fuel rest2 (replacementChar :: acc)
                | _ => scanString fuel rest2 (replacementChar :: acc)
              else scanString fuel rest2 (Char.ofNat u :: acc)
            else none
          | _ => none
        else none
    else if c.toNat < 32 then none
    else scanString fuel rest (c :: acc)

/-- Drops leading decimal digits. -/
def skipDigits : List Char → List Char
  | [] => []
  | c :: cs => if isDigit c then skipDigits cs else c :: cs

/-- The optional exponent of a number: `e` or `E`, an optional sign, one or more digits. -/
def scanExp (cs : List Char) : Option (List Char) :=
  match cs with
  | [] => some []
  | e :: r =>
    if e = 'e' ∨ e = 'E' then
      match (match r with
        | [] => r
        | s :: r1 => if s = '+' ∨ s = '-' then r1 else r) with
      | [] => none
      | d :: r2 => if isDigit d then some (skipDigits r2) else none
    else some cs

/-- The optional fraction of a number, a point and one or more digits, then the exponent. -/
def scanFrac (cs : List Char) : Option (List Char) :=
  match cs with
  | [] => some []
  | p :: r =>
    if p = '.' then
      match r with
      | [] => none
      | d :: r1 => if isDigit d then scanExp (skipDigits r1) else none
    else scanExp cs

/-- Scans a number literal: an optional minus sign, `0` or a digit string without leading zero,
an optional fraction, an optional exponent. Gives the input after the literal. -/
def scanNumber (cs : List Char) : Option (List Char) :=
  match (match cs with
    | [] => cs
    | s :: r => if s = '-' then r else cs) with
  | [] => none
  | c :: r =>
    if c = '0' then scanFrac r
    else if isDigit c then scanFrac (skipDigits r)
    else none

/-- Cuts the input into tokens; `fuel` bounds the number of tokens, and the length of the input
plus one is always enough. -/
def tokenize : Nat → List Char → Option (List Token)
  | 0, _ => none
  | fuel + 1, cs =>
    match skipSpace cs with
    | [] => some []
    | c :: r =>
      if c = '\x7b' then (tokenize fuel r).map (List.cons Token.beginObject)
      else if c = '\x7d' then (tokenize fuel r).map (List.cons Token.endObject)
      else if c = '[' then (tokenize fuel r).map (List.cons Token.beginArray)
      else if c = ']' then (tokenize fuel r).map (List.cons Token.endArray)
      else if c = ':' then (tokenize fuel r).map (List.cons Token.colon)
      else if c = ',' then (tokenize fuel r).map (List.cons Token.comma)
      else if c = '"' then
        match scanString (r.length + 1) r [] with
        | none => none
        | some (s, r1) => (tokenize fuel r1).map (List.cons (Token.str (String.mk s)))
      else if c = 't' then
        match r with
        | 'r' :: 'u' :: 'e' :: r1 => (tokenize fuel r1).map (List.cons Token.bool)
        | _ => none
      else if c = 'f' then
        match r with
        | 'a' :: 'l' :: 's' :: 'e' :: r1 => (tokenize fuel r1).map (List.cons Token.bool)
        | _ => none
      else if c = 'n' then
        match r with
        | 'u' :: 'l' :: 'l' :: r1 => (tokenize fuel r1).map (List.cons Token.null)
        | _ => none
      else if c = '-' ∨ isDigit c = true then
        match scanNumber (c :: r) with
        | none => none
        | some r1 => (tokenize fuel r1).map (List.cons Token.number)
      else none

/-- The tokens of a Go string, if it can be cut into tokens at all. -/
def tokens (data : String) : Option (List Token) := tokenize (data.data.length + 1) data.data

/-- What the grammar allows next. -/
inductive Expect where
  | value
  | valueOrEnd
  | keyOrEnd
  | key
  | colon
  | commaOrEnd
  | done
  deriving DecidableEq

/-- The largest nesting depth of arrays and objects that the scanner accepts. -/
def maxNestingDepth : Nat := 10000

/-- The expectation once a value is complete: inside a container (`true` for an object, `false`
for an array) a comma or the end of the container, at the top level nothing more. -/
def afterValue (stack : List Bool) : Expect :=
  match stack with
  | [] => Expect.done
  | _ :: _ => Expect.commaOrEnd

/-- One step of the grammar check: the expectation and the stack of open containers before a
token, and after it; `none` is a syntax error. -/
def grammarStep (e : Expect) (stack : List Bool) (t : Token) : Option (Expect × List Bool) :=
  match e, t with
  | Expect.value, Token.str _ => some (afterValue stack, stack)
  | Expect.value, Token.number => some (afterValue stack, stack)
  | Expect.value, Token.bool => some (afterValue stack, stack)
  | Expect.value, Token.null => some (afterValue stack, stack)
  | Expect.value, Token.beginObject =>
    if stack.length < maxNestingDepth then some (Expect.keyOrEnd, true :: stack) else none
  | Expect.value, Token.beginArray =>
    if stack.length < maxNestingDepth then some (Expect.valueOrEnd, false :: stack) else none
  | Expect.valueOrEnd, Token.str _ => some (afterValue stack, stack)
  | Expect.valueOrEnd, Token.number => some (afterValue stack, stack)
  | Expect.valueOrEnd, Token.bool => some (afterValue stack, stack)
  | Expect.valueOrEnd, Token.null => some (afterValue stack, stack)
  | Expect.valueOrEnd, Token.beginObject =>
    if stack.length < maxNestingDepth then some (Expect.keyOrEnd, true :: stack) else none
  | Expect.valueOrEnd, Token.beginArray =>
    if stack.length < maxNestingDepth then some (Expect.valueOrEnd, false :: stack) else none
  | Expect.valueOrEnd, Token.endArray =>
    match stack with
    | false :: rest => some (afterValue rest, rest)
    | _ => none
  | Expect.keyOrEnd, Token.str _ => some (Expect.colon, stack)
  | Expect.keyOrEnd, Token.endObject =>
    match stack with
    | true :: rest => some (afterValue rest, rest)
    | _ => none
  | Expect.key, Token.str _ => some (Expect.colon, stack)
  | Expect.colon, Token.colon => some (Expect.value, stack)
  | Expect.commaOrEnd, Token.comma =>
    match stack with
    | true :: _ => some (Expect.key, stack)
    | false :: _ => some (Expect.value, stack)
    | [] => none
  | Expect.commaOrEnd, Token.endObject =>
    match stack with
    | true :: rest => some (afterValue rest, rest)
    | _ => none
  | Expect.commaOrEnd, Token.endArray =>
    match stack with
    | false :: rest => some (afterValue rest, rest)
    | _ => none
  | _, _ => none

/-- Runs the grammar check over the tokens: they must form exactly one JSON value. -/
def grammar : List Token → Expect → List Bool → Bool
  | [], e, _ => decide (e = Expect.done)
  | t :: ts, e, stack =>
    match grammarStep e stack t with
    | none => false
    | some (e1, stack1) => grammar ts e1 stack1

/-- The check `checkValid(data, &d.scan)`: the bytes are one well-formed JSON text. -/
def checkValid (data : String) : Bool :=
  match tokens data with
  | none => false
  | some ts => grammar ts Expect.value []

end json

namespace json

/-- The four fields of `Factor`, by their JSON names `address`, `email`, `type`, `payload`. -/
inductive Field where
  | Address
  | Email
  | Type_
  | Payload
  deriving DecidableEq

/-- Case folding of member names: ASCII letters to upper case, and the two letters outside
ASCII that fold to an ASCII letter, U+017F to `S` and U+212A to `K`. -/
def foldChar (c : Char) : Char :=
  if 97 ≤ c.toNat ∧ c.toNat ≤ 122 then Char.ofNat (c.toNat - 32)
  else if c.toNat = 383 then 'S'
  else if c.toNat = 8490 then 'K'
  else c

/-- The field that a member name selects: the one whose JSON name equals it up to case. -/
def fieldOf (key : String) : Option Field :=
  if key.data.map foldChar = "ADDRESS".data then some Field.Address
  else if key.data.map foldChar = "EMAIL".data then some Field.Email
  else if key.data.map foldChar = "TYPE".data then some Field.Type_
  else if key.data.map foldChar = "PAYLOAD".data then some Field.Payload
  else none

/-- The decoder while it walks the members of the top-level object:
* `factor`: the record so far;
* `err`: the first type mismatch met (`d.savedError`);
* `depth`: the number of containers open, 1 for the top-level object itself;
* `key`: the member name read at depth 1 whose value has not begun yet;
* `payload`: inside the array that is decoded into `Payload`, its elements so far, last first. -/
structure DecodeState where
  factor : Factor
  err : Option String
  depth : Nat
  key : Option String
  payload : Option (List String)

/-- Keeps the first error, as `d.saveError` does. -/
def saveError (st : DecodeState) (msg : String) : DecodeState :=
  match st.err with
  | none => { st with err := some msg }
  | some _ => st

/-- The text of `UnmarshalTypeError` for a JSON value of kind `value` met where the Go type
`type_` is wanted, inside the member `field` of the record or, with the empty `field`, at the top
level. The wording is that of the library since it names the struct field; older versions of the
library leave the field out. The chaincode drops the error, and no statement below depends on
its text, only on whether there is one. -/
def typeError (value field type_ : String) : String :=
  if field = "" then "json: cannot unmarshal " ++ value ++ " into Go value of type " ++ type_
  else
    "json: cannot unmarshal " ++ value ++ " into Go struct field Factor." ++ field
      ++ " of type " ++ type_

/-- The JSON name of a field. -/
def Field.name (f : Field) : String :=
  match f with
  | Field.Address => "address"
  | Field.Email => "email"
  | Field.Type_ => "type"
  | Field.Payload => "payload"

/-- Stores a JSON string into the string field `f`. -/
def setString (factor : Factor) (f : Field) (s : String) : Factor :=
  match f with
  | Field.Address => { factor with Address := s }
  | Field.Email => { factor with Email := s }
  | Field.Type_ => { factor with Type_ := s }
  | Field.Payload => factor

/-- A scalar value (`kind` is `string`, `number`, `bool` or `null`; `s` is the text of a string)
met as the value of the member `key` of the top-level object. A string goes into a string field;
`null` leaves a string field alone and empties `Payload`; anything else is a type mismatch that
leaves the field alone. A member that selects no field is skipped. -/
def memberScalar (st : DecodeState) (key : String) (kind : String) (s : String) : DecodeState :=
  let st1 := { st with key := none }
  match fieldOf key with
  | none => st1
  | some Field.Payload =>
    if kind = "null" then { st1 with factor := { st1.factor with Payload := [] } }
    else saveError st1 (typeError kind "payload" "[]string")
  | some f =>
    if kind = "string" then { st1 with factor := setString st1.factor f s }
    else if kind = "null" then st1
    else saveError st1 (typeError kind f.name "string")

/-- A scalar token, as `memberScalar` wants it: its kind and, for a string, its text. -/
def scalarOf (t : Token) : Option (String × String) :=
  match t with
  | Token.str s => some ("string", s)
  | Token.number => some ("number", "")
  | Token.bool => some ("bool", "")
  | Token.null => some ("null", "")
  | _ => none

/-- One token of the members of the top-level object. Each array met for `payload` is collected
from scratch; the library decodes a second `payload` member over the slice left by the first,
which shows only in the elements of `Payload` when the member is repeated, and no handler reads
`Payload`. -/
def decodeStep (st : DecodeState) (t : Token) : DecodeState :=
  match t with
  | Token.colon => st
  | Token.comma => st
  | Token.beginObject =>
    if st.depth = 1 then
      match st.key with
      | none => { st with depth := st.depth + 1 }
      | some key =>
        let st1 := { st with key := none, depth := st.depth + 1 }
        match fieldOf key with
        | none => st1
        | some Field.Payload => saveError st1 (typeError "object" "payload" "[]string")
        | some f => saveError st1 (typeError "object" f.name "string")
    else if st.depth = 2 then
      match st.payload with
      | none => { st with depth := st.depth + 1 }
      | some elems =>
        saveError { st with depth := st.depth + 1, payload := some ("" :: elems) }
          (typeError "object" "payload" "string")
    else { st with depth := st.depth + 1 }
  | Token.beginArray =>
    if st.depth = 1 then
      match st.key with
      | none => { st with depth := st.depth + 1 }
      | some key =>
        let st1 := { st with key := none, depth := st.depth + 1 }
        match fieldOf key with
        | none => st1
        | some Field.Payload => { st1 with payload := some [] }
        | some f => saveError st1 (typeError "array" f.name "string")
    else if st.depth = 2 then
      match st.payload with
      | none => { st with depth := st.depth + 1 }
      | some elems =>
        saveError { st with depth := st.depth + 1, payload := some ("" :: elems) }
          (typeError "array" "payload" "string")
    else { st with depth := st.depth + 1 }
  | Token.endObject => { st with depth := st.depth - 1 }
  | Token.endArray =>
    if st.depth = 2 then
      match st.payload with
      | none => { st with depth := st.depth - 1 }
      | some elems =>
        { st with
          depth := st.depth - 1
          payload := none
          factor := { st.factor with Payload := elems.reverse } }
    else { st with depth := st.depth - 1 }
  | Token.str s =>
    if st.depth = 1 then
      match st.key with
      | none => { st with key := some s }
      | some key => memberScalar st key "string" s
    else if st.depth = 2 then
      match st.payload with
      | none => st
      | some elems => { st with payload := some (s :: elems) }
    else st
  | Token.number =>
    if st.depth = 1 then
      match st.key with
      | none => st
      | some key => memberScalar st key "number" ""
    else if st.depth = 2 then
      match st.payload with
      | none => st
      | some elems =>
        saveError { st with payload := some ("" :: elems) } (typeError "number" "payload" "string")
    else st
  | Token.bool =>
    if st.depth = 1 then
      match st.key with
      | none => st
      | some key => memberScalar st key "bool" ""
    else if st.depth = 2 then
      match st.payload with
      | none => st
      | some elems =>
        saveError { st with payload := some ("" :: elems) } (typeError "bool" "payload" "string")
    else st
  | Token.null =>
    if st.depth = 1 then
      match st.key with
      | none => st
      | some key => memberScalar st key "null" ""
    else if st.depth = 2 then
      match st.payload with
      | none => st
      | some elems => { st with payload := some ("" :: elems) }
    else st

/-- The decoder right after the brace that opens the top-level object. -/
def start (factor : Factor) : DecodeState :=
  { factor := factor, err := none, depth := 1, key := none, payload := none }

/-- The decoder after the tokens `ts` that follow the opening brace of the top-level object. -/
def afterTokens (factor : Factor) (ts : List Token) : DecodeState :=
  ts.foldl decodeStep (start factor)

/-- Decodes the tokens of a well-formed JSON text into the record: an object is decoded member
by member; `null` leaves the record alone without error; any other value is a type mismatch
that leaves the record alone. -/
def decode (ts : List Token) (factor : Factor) : Factor × Option String :=
  match ts with
  | Token.beginObject :: rest =>
    let st := afterTokens factor rest
    (st.factor, st.err)
  | Token.beginArray :: _ => (factor, some (typeError "array" "" "main.Factor"))
  | Token.str _ :: _ => (factor, some (typeError "string" "" "main.Factor"))
  | Token.number :: _ => (factor, some (typeError "number" "" "main.Factor"))
  | Token.bool :: _ => (factor, some (typeError "bool" "" "main.Factor"))
  | _ => (factor, none)

/-- The text of the error for bytes that are not a well-formed JSON text. The library words
this error after the byte at which the scan stopped; no caller in the chaincode looks at it. -/
def malformed : String := "json: invalid JSON text"

/-- The bytes are a JSON object: well-formed, and the first token opens an object. -/
def isObject (data : String) : Bool :=
  checkValid data &&
    (match tokens data with
      | some (Token.beginObject :: _) => true
      | _ => false)

/-- Modelled from the spec: `json.Unmarshal` belongs to the Go standard library, not to this
repository; the spec calls it decoding "into the Factor Record shape", a failure of which leaves
"a zero-valued record". The model follows the library: bytes that are not a well-formed JSON
text are an error and leave the record untouched; otherwise the value is decoded into the
record, type mismatches being skipped and the first of them returned. -/
def Unmarshal : ExampleCC.Unmarshal := fun data factor =>
  match tokens data with
  | none => (factor, some malformed)
  | some ts => if grammar ts Expect.value [] then decode ts factor else (factor, some malformed)

end json

namespace json

/-- The tokens `ts` close the `d` containers that are open, and end with the last of them. -/
def closes : Nat → List Token → Bool
  | d, [] => decide (d = 0)
  | 0, _ :: _ => false
  | d + 1, t :: ts =>
    match t with
    | Token.beginObject => closes (d + 2) ts
    | Token.beginArray => closes (d + 2) ts
    | Token.endObject => closes d ts
    | Token.endArray => closes d ts
    | _ => closes (d + 1) ts

/-- The tokens `v` are one JSON value whose kind does not fit the field `f`: a number, a
boolean, an object or an array for one of the three string fields; a number, a boolean, a
string or an object for `Payload`. (`null` fits every field, and an array for `Payload` is
decoded element by element.) -/
def mismatched (f : Field) (v : List Token) : Bool :=
  match v with
  | [Token.number] => true
  | [Token.bool] => true
  | [Token.str _] => decide (f = Field.Payload)
  | Token.beginObject :: inner => closes 1 inner
  | Token.beginArray :: inner => decide (f ≠ Field.Payload) && closes 1 inner
  | _ => false

end json

namespace json

/-- The decoder stands at the start of a member of the top-level object: only that object is
open, no member name awaits its value, and no array is being collected. -/
def atMemberStart (st : DecodeState) : Prop :=
  st.depth = 1 ∧ st.key = none ∧ st.payload = none

instance (st : DecodeState) : Decidable (atMemberStart st) := by
  unfold atMemberStart; exact inferInstance

/-- Two states of the decoder that differ at most in the error saved. -/
def sameRecord (st1 st2 : DecodeState) : Prop :=
  st1.factor = st2.factor ∧ st1.depth = st2.depth ∧ st1.key = st2.key
    ∧ st1.payload = st2.payload

end json

/-- A JSON object with the address `X` and a payload that is a number, not a list. -/
def mismatchFactorJSON : String := "\x7b\"address\":\"X\",\"payload\":5\x7d"

/-! ## Decimal encoding and parsing -/

theorem digitChar_spec (d : Nat) (h : d < 10) :
    isDigit (digitChar d) = true ∧ digitVal (digitChar d) = d := by
  interval_cases d <;> exact ⟨by decide, by decide⟩

theorem decVal_append (l1 l2 : List Char) (a : Nat) :
    decVal (l1 ++ l2) a = decVal l2 (decVal l1 a) := by
  induction l1 generalizing a with
  | nil => rfl
  | cons c cs ih => simp [decVal, ih]

theorem le_decVal (l : List Char) (a : Nat) : a ≤ decVal l a := by
  induction l generalizing a with
  | nil => exact Nat.le_refl a
  | cons c cs ih =>
    have h := ih (a * 10 + digitVal c)
    simp only [decVal]
    omega

theorem natDigits_append (fuel n : Nat) (acc : List Char) :
    natDigits fuel n acc = natDigits fuel n [] ++ acc := by
  induction fuel generalizing n acc with
  | zero => simp [natDigits]
  | succ f ih =>
    simp only [natDigits]
    split
    · simp
    · rw [ih (n / 10) (digitChar (n % 10) :: acc), ih (n / 10) [digitChar (n % 10)]]
      simp

theorem natDigits_allDigits (fuel n : Nat) : allDigits (natDigits fuel n []) := by
  induction fuel generalizing n with
  | zero => intro c hc; simp [natDigits] at hc
  | succ f ih =>
    have hd := (digitChar_spec (n % 10) (Nat.mod_lt n (by decide))).1
    simp only [natDigits]
    split
    · intro c hc
      simp only [List.mem_singleton] at hc
      rw [hc]; exact hd
    · rw [natDigits_append]
      intro c hc
      simp only [List.mem_append, List.mem_singleton] at hc
      rcases hc with hc | hc
      · exact ih (n / 10) c hc
      · rw [hc]; exact hd

theorem natDigits_ne_nil (fuel n : Nat) : natDigits (fuel + 1) n [] ≠ [] := by
  simp only [natDigits]
  split
  · simp
  · rw [natDigits_append]; simp

theorem decVal_natDigits (fuel n : Nat) (h : n < 10 ^ fuel) :
    decVal (natDigits fuel n []) 0 = n := by
  induction fuel generalizing n with
  | zero =>
    simp only [pow_zero, Nat.lt_one_iff] at h
    simp [natDigits, decVal, h]
  | succ f ih =>
    have hd := (digitChar_spec (n % 10) (Nat.mod_lt n (by decide))).2
    simp only [natDigits]
    split
    · rename_i h0
      simp only [decVal, hd]
      omega
    · have hlt : n / 10 < 10 ^ f := by
        rw [pow_succ] at h
        exact Nat.div_lt_of_lt_mul (by omega)
      rw [natDigits_append, decVal_append, ih (n / 10) hlt]
      simp only [decVal, hd]
      omega

theorem atoiFastLoop_digits (l : List Char) (a : Nat) (h : allDigits l) :
    atoiFastLoop l a = some (decVal l a) := by
  induction l generalizing a with
  | nil => rfl
  | cons c cs ih =>
    have hc : isDigit c = true := h c (List.mem_cons_self c cs)
    have hcs : allDigits cs := fun d hd => h d (List.mem_cons_of_mem c hd)
    simp [atoiFastLoop, decVal, hc, ih _ hcs]

theorem parseUintLoop_digits (l : List Char) (a : Nat) (h : allDigits l)
    (hv : decVal l a ≤ maxUint64) : parseUintLoop l a = (decVal l a, none) := by
  induction l generalizing a with
  | nil => rfl
  | cons c cs ih =>
    have hc : isDigit c = true := h c (List.mem_cons_self c cs)
    have hcs : allDigits cs := fun d hd => h d (List.mem_cons_of_mem c hd)
    simp only [decVal] at hv ⊢
    have hle := le_decVal cs (a * 10 + digitVal c)
    have h1 : ¬ (a ≥ maxUint64 / 10 + 1) := by
      simp only [maxUint64] at hv ⊢
      omega
    have h2 : ¬ (a * 10 + digitVal c > maxUint64) := by omega
    simp only [parseUintLoop, hc, if_true, h1, h2, if_false]
    exact ih _ hcs hv

theorem head_not_sign (c : Char) (h : isDigit c = true) : c ≠ '-' ∧ c ≠ '+' := by
  constructor <;> (intro hc; rw [hc] at h; revert h; decide)

theorem ParseUint_digits (l : List Char) (h : allDigits l) (hne : l ≠ [])
    (hv : decVal l 0 ≤ maxUint64) : ParseUint l = (decVal l 0, none) := by
  cases l with
  | nil => exact absurd rfl hne
  | cons c cs => exact parseUintLoop_digits (c :: cs) 0 h hv

theorem atoiChars_digits (l : List Char) (h : allDigits l) (hne : l ≠ [])
    (hv : decVal l 0 ≤ 9223372036854775807) :
    atoiChars l = (((decVal l 0 : Nat) : Int), none) := by
  cases l with
  | nil => exact absurd rfl hne
  | cons c cs =>
    have hc : isDigit c = true := h c (List.mem_cons_self c cs)
    obtain ⟨hm, hp⟩ := head_not_sign c hc
    unfold atoiChars
    split
    · simp [hm, hp, atoiFastLoop_digits (c :: cs) 0 h]
    · have hu := ParseUint_digits (c :: cs) h hne (by simp only [maxUint64]; omega)
      have hb : ¬ (decVal (c :: cs) 0 ≥ 9223372036854775808) := by omega
      simp [ParseInt, hm, hp, hu, hb]

theorem atoiChars_neg_digits (l : List Char) (h : allDigits l) (hne : l ≠ [])
    (hv : decVal l 0 ≤ 9223372036854775808) :
    atoiChars ('-' :: l) = (- ((decVal l 0 : Nat) : Int), none) := by
  unfold atoiChars
  split
  · have hlen : ¬ (l.length < 1) := by
      cases l with
      | nil => exact absurd rfl hne
      | cons c cs => simp
    simp [hlen, atoiFastLoop_digits l 0 h]
  · have hu := ParseUint_digits l h hne (by simp only [maxUint64]; omega)
    have hb : ¬ (decVal l 0 > 9223372036854775808) := by omega
    simp [ParseInt, hu, hb]

/-- Parsing the decimal encoding of an `int` gives the `int` back, without error. -/
theorem Atoi_Itoa (z : Int) (h : inIntRange z) : Atoi (Itoa z) = (z, none) := by
  obtain ⟨hlo, hhi⟩ := h
  simp only [minInt, maxInt] at hlo hhi
  have hlt : z.natAbs < 10 ^ 20 := by norm_num; omega
  have hval := decVal_natDigits 20 z.natAbs hlt
  have hall := natDigits_allDigits 20 z.natAbs
  have hne := natDigits_ne_nil 19 z.natAbs
  show atoiChars (itoaChars z) = (z, none)
  unfold itoaChars
  split
  · rw [atoiChars_neg_digits _ hall hne (by rw [hval]; omega), hval]
    congr 1; omega
  · rw [atoiChars_digits _ hall hne (by rw [hval]; omega), hval]
    congr 1; omega

/-- Sample values of the two conversions: signs, the bounds of the `int` range, and rejected
inputs together with the value returned next to the error. -/
theorem strconv_samples :
    Itoa 100 = "100" ∧ Itoa 0 = "0" ∧ Itoa (-42) = "-42"
    ∧ Itoa minInt = "-9223372036854775808" ∧ Itoa maxInt = "9223372036854775807"
    ∧ Atoi "100" = (100, none) ∧ Atoi "+5" = (5, none) ∧ Atoi "-007" = (-7, none)
    ∧ Atoi "-9223372036854775808" = (minInt, none)
    ∧ Atoi "9223372036854775808" = (maxInt, some NumError.ErrRange)
    ∧ Atoi "-9223372036854775809" = (minInt, some NumError.ErrRange)
    ∧ Atoi "" = (0, some NumError.ErrSyntax) ∧ Atoi "+" = (0, some NumError.ErrSyntax)
    ∧ Atoi "abc" = (0, some NumError.ErrSyntax) ∧ Atoi "1 " = (0, some NumError.ErrSyntax)
    ∧ Atoi "99999999999999999999x" = (maxInt, some NumError.ErrRange)
    ∧ Atoi "12345678901234567890x" = (0, some NumError.ErrSyntax) := by
  decide

/-! ## Ledger calls that succeed -/

theorem GetState_ok (stub : ChaincodeStub) (key : String)
    (h : stub.fault stub.calls.length = none) :
    stub.GetState key
      = (Except.ok (stub.State key), { stub with calls := stub.calls ++ [LedgerCall.get key] }) := by
  simp [GetState, nextFault, h]

theorem PutState_ok (stub : ChaincodeStub) (key value : String)
    (h : stub.fault stub.calls.length = none) :
    stub.PutState key value
      = (none, { stub with
          State := fun k => if k = key then some value else stub.State k
          calls := stub.calls ++ [LedgerCall.put key value] }) := by
  simp [PutState, nextFault, h]

theorem DelState_ok (stub : ChaincodeStub) (key : String)
    (h : stub.fault stub.calls.length = none) :
    stub.DelState key
      = (none, { stub with
          State := fun k => if k = key then none else stub.State k
          calls := stub.calls ++ [LedgerCall.del key] }) := by
  simp [DelState, nextFault, h]

theorem succeeds_zero (stub : ChaincodeStub) (n : Nat) (h : stub.succeeds (n + 1)) :
    stub.fault stub.calls.length = none := by
  simpa using h 0 (Nat.succ_pos n)

theorem succeeds_one (stub : ChaincodeStub) (n : Nat) (h : stub.succeeds (n + 2)) :
    stub.fault (stub.calls.length + 1) = none := h 1 (by omega)

theorem succeeds_two (stub : ChaincodeStub) (n : Nat) (h : stub.succeeds (n + 3)) :
    stub.fault (stub.calls.length + 2) = none := h 2 (by omega)

theorem succeeds_three (stub : ChaincodeStub) (n : Nat) (h : stub.succeeds (n + 4)) :
    stub.fault (stub.calls.length + 3) = none := h 3 (by omega)

/-- The run of `move` on two present keys with a well-formed amount when its four ledger calls
succeed: both balances are read, then both are written, the destination last. -/
theorem move_run (stub : ChaincodeStub) (A B amount Avalbytes Bvalbytes : String) (X : Int)
    (hA : stub.State A = some Avalbytes) (hB : stub.State B = some Bvalbytes)
    (hX : Atoi amount = (X, none)) (hok : stub.succeeds 4) :
    move stub [A, B, amount]
      = (shim.Success none,
          { stub with
            State := fun k =>
              if k = B then some (Itoa (wrapInt ((Atoi Bvalbytes).1 + X)))
              else if k = A then some (Itoa (wrapInt ((Atoi Avalbytes).1 - X)))
              else stub.State k
            calls := stub.calls ++ [LedgerCall.get A, LedgerCall.get B,
              LedgerCall.put A (Itoa (wrapInt ((Atoi Avalbytes).1 - X))),
              LedgerCall.put B (Itoa (wrapInt ((Atoi Bvalbytes).1 + X)))] }) := by
  have h0 := succeeds_zero stub 3 hok
  have h1 := succeeds_one stub 2 hok
  have h2 := succeeds_two stub 1 hok
  have h3 := succeeds_three stub 0 hok
  simp [move, GetState, PutState, nextFault, h0, h1, h2, h3, hA, hB, hX]

theorem wrapInt_of_inIntRange (z : Int) (h : inIntRange z) : wrapInt z = z := by
  obtain ⟨hlo, hhi⟩ := h
  simp only [minInt, maxInt] at hlo hhi
  unfold wrapInt
  omega

theorem wrapInt_add_wrapInt (a b : Int) : wrapInt (wrapInt a + wrapInt b) = wrapInt (a + b) := by
  unfold wrapInt
  omega

/-! ## The payment `move` -/

/-- C1, as amended: for distinct keys `A`, `B` holding the decimal encodings of the `int` values
`a0`, `b0`, and an `int` amount `x`, when the four ledger calls succeed `move [A, B, decimal x]`
succeeds, `A` holds the decimal encoding of `a0 - x` and `B` that of `b0 + x`, both computed with
64-bit wrap-around; the wrapped sum of the two balances is unchanged, and when `a0 - x` and
`b0 + x` lie in the `int` range the two encodings are those of the exact `a0 - x` and `b0 + x`,
whose sum is `a0 + b0`. -/
theorem move_transfers (stub : ChaincodeStub) (A B : String) (a0 b0 x : Int)
    (hAB : A ≠ B) (ha : inIntRange a0) (hb : inIntRange b0) (hx : inIntRange x)
    (hA : stub.State A = some (Itoa a0)) (hB : stub.State B = some (Itoa b0))
    (hok : stub.succeeds 4) :
    (move stub [A, B, Itoa x]).1 = shim.Success none
    ∧ (move stub [A, B, Itoa x]).2.State A = some (Itoa (wrapInt (a0 - x)))
    ∧ (move stub [A, B, Itoa x]).2.State B = some (Itoa (wrapInt (b0 + x)))
    ∧ wrapInt (wrapInt (a0 - x) + wrapInt (b0 + x)) = wrapInt (a0 + b0)
    ∧ (inIntRange (a0 - x) → inIntRange (b0 + x) →
        (move stub [A, B, Itoa x]).2.State A = some (Itoa (a0 - x))
        ∧ (move stub [A, B, Itoa x]).2.State B = some (Itoa (b0 + x))
        ∧ (a0 - x) + (b0 + x) = a0 + b0) := by
  rw [move_run stub A B (Itoa x) (Itoa a0) (Itoa b0) x hA hB (Atoi_Itoa x hx) hok]
  have hsum : wrapInt (wrapInt (a0 - x) + wrapInt (b0 + x)) = wrapInt (a0 + b0) := by
    rw [wrapInt_add_wrapInt]; congr 1; omega
  have hAv : (Atoi (Itoa a0)).1 = a0 := by rw [Atoi_Itoa a0 ha]
  have hBv : (Atoi (Itoa b0)).1 = b0 := by rw [Atoi_Itoa b0 hb]
  refine ⟨rfl, ?_, ?_, hsum, ?_⟩
  · simp [hAB, hAv]
  · simp [hBv]
  · intro h1 h2
    refine ⟨?_, ?_, by omega⟩
    · simp [hAB, hAv, wrapInt_of_inIntRange _ h1]
    · simp [hBv, wrapInt_of_inIntRange _ h2]

/-- C1, witness: the payment of 30 from `a` (holding 100) to `b` (holding 200), both results
in range. -/
theorem move_transfers_witness :
    (move (sampleStub "100" "200") ["a", "b", Itoa 30]).1 = shim.Success none
    ∧ (move (sampleStub "100" "200") ["a", "b", Itoa 30]).2.State "a"
        = some (Itoa (wrapInt (100 - 30)))
    ∧ (move (sampleStub "100" "200") ["a", "b", Itoa 30]).2.State "b"
        = some (Itoa (wrapInt (200 + 30)))
    ∧ wrapInt (wrapInt (100 - 30) + wrapInt (200 + 30)) = wrapInt (100 + 200)
    ∧ (move (sampleStub "100" "200") ["a", "b", Itoa 30]).2.State "a" = some (Itoa (100 - 30))
    ∧ (move (sampleStub "100" "200") ["a", "b", Itoa 30]).2.State "b" = some (Itoa (200 + 30))
    ∧ ((100 : Int) - 30) + (200 + 30) = 100 + 200 :=
  have h := move_transfers (sampleStub "100" "200") "a" "b" 100 200 30 (by decide) (by decide)
    (by decide) (by decide) (by decide) (by decide) (fun _ _ => rfl)
  ⟨h.1, h.2.1, h.2.2.1, h.2.2.2.1, h.2.2.2.2 (by decide) (by decide)⟩

/-- C1, counterexample: with `a` holding the smallest `int`, `b` holding 0 and the amount 1, on
a ledger whose calls all succeed, `move` succeeds and leaves `a` holding the largest `int`, which
is not the decimal encoding of `a0 - x`; the sum of the two balances has changed. -/
theorem move_exact_balance_counterexample :
    (sampleStub (Itoa minInt) (Itoa 0)).succeeds 4
    ∧ "a" ≠ "b" ∧ inIntRange minInt ∧ inIntRange 0 ∧ inIntRange 1
    ∧ (sampleStub (Itoa minInt) (Itoa 0)).State "a" = some (Itoa minInt)
    ∧ (sampleStub (Itoa minInt) (Itoa 0)).State "b" = some (Itoa 0)
    ∧ (move (sampleStub (Itoa minInt) (Itoa 0)) ["a", "b", Itoa 1]).1 = shim.Success none
    ∧ (move (sampleStub (Itoa minInt) (Itoa 0)) ["a", "b", Itoa 1]).2.State "a"
        = some "9223372036854775807"
    ∧ (move (sampleStub (Itoa minInt) (Itoa 0)) ["a", "b", Itoa 1]).2.State "b" = some "1"
    ∧ (move (sampleStub (Itoa minInt) (Itoa 0)) ["a", "b", Itoa 1]).2.State "a"
        ≠ some (Itoa (minInt - 1))
    ∧ (9223372036854775807 : Int) + 1 ≠ minInt + 0 :=
  ⟨fun _ _ => rfl, by decide⟩

/-- C2: for every ledger and every argument list `[A, B, amount]`, if `A` is absent, or `A` is
present and `B` is absent, and the reads issued report no storage error, then `move` fails with
`Entity not found`, the world state is as before, and the only ledger calls issued are the
reads (no put), whatever the amount is. -/
theorem move_entity_not_found (stub : ChaincodeStub) (A B amount : String)
    (h : (stub.State A = none ∧ stub.succeeds 1)
      ∨ (stub.State A ≠ none ∧ stub.State B = none ∧ stub.succeeds 2)) :
    (move stub [A, B, amount]).1 = shim.Error "Entity not found"
    ∧ (move stub [A, B, amount]).2.State = stub.State
    ∧ (move stub [A, B, amount]).2.calls
        = stub.calls ++ (if stub.State A = none then [LedgerCall.get A]
            else [LedgerCall.get A, LedgerCall.get B]) := by
  rcases h with ⟨hA, hok⟩ | ⟨hA, hB, hok⟩
  · have h0 := succeeds_zero stub 0 hok
    simp [move, GetState, nextFault, h0, hA]
  · have h0 := succeeds_zero stub 1 hok
    have h1 := succeeds_one stub 0 hok
    obtain ⟨v, hv⟩ := Option.ne_none_iff_exists'.mp hA
    simp [move, GetState, nextFault, h0, h1, hv, hB]

/-- C2, witness: the source `c` is absent; the amount is not even a number. -/
theorem move_entity_not_found_witness :
    (move (sampleStub "100" "200") ["c", "b", "x"]).1 = shim.Error "Entity not found"
    ∧ (move (sampleStub "100" "200") ["c", "b", "x"]).2.State = (sampleStub "100" "200").State
    ∧ (move (sampleStub "100" "200") ["c", "b", "x"]).2.calls
        = (sampleStub "100" "200").calls
          ++ (if (sampleStub "100" "200").State "c" = none then [LedgerCall.get "c"]
            else [LedgerCall.get "c", LedgerCall.get "b"]) :=
  move_entity_not_found (sampleStub "100" "200") "c" "b" "x"
    (Or.inl ⟨by decide, fun _ _ => rfl⟩)

/-- C3: for every ledger in which `A` and `B` are present and every amount that `strconv.Atoi`
rejects, when the two reads report no storage error `move [A, B, amount]` fails with the
invalid-amount error, the world state is as before, and the only ledger calls issued are the two
reads. -/
theorem move_invalid_amount (stub : ChaincodeStub) (A B amount : String)
    (hA : stub.State A ≠ none) (hB : stub.State B ≠ none)
    (hX : (Atoi amount).2 ≠ none) (hok : stub.succeeds 2) :
    (move stub [A, B, amount]).1
        = shim.Error "Invalid transaction amount, expecting a integer value"
    ∧ (move stub [A, B, amount]).2.State = stub.State
    ∧ (move stub [A, B, amount]).2.calls
        = stub.calls ++ [LedgerCall.get A, LedgerCall.get B] := by
  have h0 := succeeds_zero stub 1 hok
  have h1 := succeeds_one stub 0 hok
  obtain ⟨va, hva⟩ := Option.ne_none_iff_exists'.mp hA
  obtain ⟨vb, hvb⟩ := Option.ne_none_iff_exists'.mp hB
  obtain ⟨e, he⟩ := Option.ne_none_iff_exists'.mp hX
  have hX1 : Atoi amount = ((Atoi amount).1, some e) := by rw [← he]
  simp only [move, GetState, nextFault, h0, hva, List.length_append, List.length_singleton, h1,
    hvb]
  rw [hX1]
  simp

/-- C3, witness: an amount one above the largest `int`, which `strconv.Atoi` rejects with a
range error. -/
theorem move_invalid_amount_witness :
    (move (sampleStub "100" "200") ["a", "b", "9223372036854775808"]).1
        = shim.Error "Invalid transaction amount, expecting a integer value"
    ∧ (move (sampleStub "100" "200") ["a", "b", "9223372036854775808"]).2.State
        = (sampleStub "100" "200").State
    ∧ (move (sampleStub "100" "200") ["a", "b", "9223372036854775808"]).2.calls
        = (sampleStub "100" "200").calls ++ [LedgerCall.get "a", LedgerCall.get "b"] :=
  move_invalid_amount (sampleStub "100" "200") "a" "b" "9223372036854775808"
    (by decide) (by decide) (by decide) (fun _ _ => rfl)

/-! ## Point writes, reads and deletes -/

/-- C4: for every ledger, key `k` and value `v`, when the two ledger calls succeed `write [k, v]`
succeeds, whether or not `k` was present, and a following `read [k]` succeeds with exactly `v` as
payload. -/
theorem write_read_roundtrip (stub : ChaincodeStub) (k v : String) (hok : stub.succeeds 2) :
    (write stub [k, v]).1 = shim.Success none
    ∧ (read (write stub [k, v]).2 [k]).1 = shim.Success (some v) := by
  have h0 := succeeds_zero stub 1 hok
  have h1 := succeeds_one stub 0 hok
  simp [write, read, GetState, PutState, nextFault, h0, h1]

/-- C4, witness: the empty value written over the present key `a`. -/
theorem write_read_roundtrip_witness :
    (write (sampleStub "100" "200") ["a", ""]).1 = shim.Success none
    ∧ (read (write (sampleStub "100" "200") ["a", ""]).2 ["a"]).1 = shim.Success (some "") :=
  write_read_roundtrip (sampleStub "100" "200") "a" "" (fun _ _ => rfl)

/-- C5: for every ledger and key `k`, when the ledger calls succeed `delete [k]` succeeds whether
or not `k` was present, a following `read [k]` fails with `Entity not found`, and a second
`delete [k]` succeeds again and leaves the world state that the first one left. -/
theorem delete_read_idempotent (stub : ChaincodeStub) (k : String) (hok : stub.succeeds 2) :
    (delete stub [k]).1 = shim.Success none
    ∧ (read (delete stub [k]).2 [k]).1 = shim.Error "Entity not found"
    ∧ (delete (delete stub [k]).2 [k]).1 = shim.Success none
    ∧ (delete (delete stub [k]).2 [k]).2.State = (delete stub [k]).2.State := by
  have h0 := succeeds_zero stub 1 hok
  have h1 := succeeds_one stub 0 hok
  refine ⟨?_, ?_, ?_, ?_⟩
  · simp [delete, DelState, nextFault, h0]
  · simp [delete, read, DelState, GetState, nextFault, h0, h1]
  · simp [delete, DelState, nextFault, h0, h1]
  · simp only [delete, DelState, nextFault, h0, List.length_append, List.length_singleton, h1]
    funext x
    by_cases hx : x = k <;> simp [hx]

/-- C5, witness: the key `c` was never present. -/
theorem delete_read_idempotent_witness :
    (delete (sampleStub "100" "200") ["c"]).1 = shim.Success none
    ∧ (read (delete (sampleStub "100" "200") ["c"]).2 ["c"]).1 = shim.Error "Entity not found"
    ∧ (delete (delete (sampleStub "100" "200") ["c"]).2 ["c"]).1 = shim.Success none
    ∧ (delete (delete (sampleStub "100" "200") ["c"]).2 ["c"]).2.State
        = (delete (sampleStub "100" "200") ["c"]).2.State :=
  delete_read_idempotent (sampleStub "100" "200") "c" (fun _ _ => rfl)

/-- C6: for every ledger and every absent key `k`, when the read reports no storage error,
`read [k]` and `getFactor [k]` fail with `Entity not found` and `query [k]` fails with the
nil-amount error naming `k`; each response has the error status and no payload, and each call
leaves the world state as it was. -/
theorem lookups_absent (stub : ChaincodeStub) (k : String)
    (hk : stub.State k = none) (hok : stub.succeeds 1) :
    (read stub [k]).1 = shim.Error "Entity not found"
    ∧ (getFactor stub [k]).1 = shim.Error "Entity not found"
    ∧ (query stub [k]).1 = shim.Error ("\x7b\"Error\":\"Nil amount for " ++ k ++ "\"\x7d")
    ∧ (read stub [k]).1.Status = shim.ERROR ∧ (read stub [k]).1.Payload = none
    ∧ (getFactor stub [k]).1.Status = shim.ERROR ∧ (getFactor stub [k]).1.Payload = none
    ∧ (query stub [k]).1.Status = shim.ERROR ∧ (query stub [k]).1.Payload = none
    ∧ (read stub [k]).2.State = stub.State
    ∧ (getFactor stub [k]).2.State = stub.State
    ∧ (query stub [k]).2.State = stub.State := by
  have h0 := succeeds_zero stub 0 hok
  simp [read, getFactor, query, GetState, nextFault, h0, hk, shim.Error]

/-- C6, witness: the key `c` is absent from the sample ledger. -/
theorem lookups_absent_witness :
    (read (sampleStub "100" "200") ["c"]).1 = shim.Error "Entity not found"
    ∧ (getFactor (sampleStub "100" "200") ["c"]).1 = shim.Error "Entity not found"
    ∧ (query (sampleStub "100" "200") ["c"]).1
        = shim.Error ("\x7b\"Error\":\"Nil amount for " ++ "c" ++ "\"\x7d")
    ∧ (read (sampleStub "100" "200") ["c"]).1.Status = shim.ERROR
    ∧ (read (sampleStub "100" "200") ["c"]).1.Payload = none
    ∧ (getFactor (sampleStub "100" "200") ["c"]).1.Status = shim.ERROR
    ∧ (getFactor (sampleStub "100" "200") ["c"]).1.Payload = none
    ∧ (query (sampleStub "100" "200") ["c"]).1.Status = shim.ERROR
    ∧ (query (sampleStub "100" "200") ["c"]).1.Payload = none
    ∧ (read (sampleStub "100" "200") ["c"]).2.State = (sampleStub "100" "200").State
    ∧ (getFactor (sampleStub "100" "200") ["c"]).2.State = (sampleStub "100" "200").State
    ∧ (query (sampleStub "100" "200") ["c"]).2.State = (sampleStub "100" "200").State :=
  lookups_absent (sampleStub "100" "200") "c" (by decide) (fun _ _ => rfl)

/-- C7: for every ledger and every key `k` present with stored bytes `v`, when the read reports
no storage error, `read [k]`, `query [k]` and `getFactor [k]` all succeed with payload `v`, and
none of them changes the world state. -/
theorem lookups_present (stub : ChaincodeStub) (k v : String)
    (hk : stub.State k = some v) (hok : stub.succeeds 1) :
    (read stub [k]).1 = shim.Success (some v)
    ∧ (query stub [k]).1 = shim.Success (some v)
    ∧ (getFactor stub [k]).1 = shim.Success (some v)
    ∧ (read stub [k]).2.State = stub.State
    ∧ (query stub [k]).2.State = stub.State
    ∧ (getFactor stub [k]).2.State = stub.State := by
  have h0 := succeeds_zero stub 0 hok
  simp [read, getFactor, query, GetState, nextFault, h0, hk]

/-- C7, witness: the stored bytes `not json` are returned as they are by the three lookups. -/
theorem lookups_present_witness :
    (read (sampleStub "not json" "200") ["a"]).1 = shim.Success (some "not json")
    ∧ (query (sampleStub "not json" "200") ["a"]).1 = shim.Success (some "not json")
    ∧ (getFactor (sampleStub "not json" "200") ["a"]).1 = shim.Success (some "not json")
    ∧ (read (sampleStub "not json" "200") ["a"]).2.State = (sampleStub "not json" "200").State
    ∧ (query (sampleStub "not json" "200") ["a"]).2.State = (sampleStub "not json" "200").State
    ∧ (getFactor (sampleStub "not json" "200") ["a"]).2.State
        = (sampleStub "not json" "200").State :=
  lookups_present (sampleStub "not json" "200") "a" "not json" (by decide) (fun _ _ => rfl)

/-! ## Factor records -/

/-- C8: for every decoder `unmarshal`, every string `X` and every argument `s` that decodes to a
factor record with address `X`, when the two ledger calls succeed `storeFactor [s]` succeeds and
a following `getFactor [X]` succeeds with exactly the bytes of `s` as payload. -/
theorem storeFactor_getFactor_roundtrip (unmarshal : Unmarshal) (stub : ChaincodeStub)
    (s X : String) (hX : (unmarshal s Factor.zero).1.Address = X) (hok : stub.succeeds 2) :
    (storeFactor unmarshal stub [s]).1 = shim.Success none
    ∧ (getFactor (storeFactor unmarshal stub [s]).2 [X]).1 = shim.Success (some s) := by
  have h0 := succeeds_zero stub 1 hok
  have h1 := succeeds_one stub 0 hok
  simp [storeFactor, getFactor, GetState, PutState, nextFault, h0, h1, hX]

/-- C8, witness: the sample record with address `X`. -/
theorem storeFactor_getFactor_roundtrip_witness :
    (storeFactor sampleUnmarshal (sampleStub "100" "200") [sampleFactorJSON]).1
        = shim.Success none
    ∧ (getFactor (storeFactor sampleUnmarshal (sampleStub "100" "200") [sampleFactorJSON]).2
        ["X"]).1 = shim.Success (some sampleFactorJSON) :=
  storeFactor_getFactor_roundtrip sampleUnmarshal (sampleStub "100" "200") sampleFactorJSON "X"
    (by decide) (fun _ _ => rfl)

/-! ## Argument counts -/

theorem move_wrong_count (stub : ChaincodeStub) (args : List String) (h : args.length ≠ 3) :
    move stub args
      = (shim.Error
          "Incorrect number of arguments. Expecting 4, function followed by 2 names and 1 value",
          stub) := by
  rcases args with _ | ⟨a, _ | ⟨b, _ | ⟨c, _ | ⟨d, t⟩⟩⟩⟩ <;> simp [move] at h ⊢

theorem write_wrong_count (stub : ChaincodeStub) (args : List String) (h : args.length ≠ 2) :
    write stub args
      = (shim.Error
          "Incorrect number of arguments. Expecting 3, function followed by 1 key and 1 value",
          stub) := by
  rcases args with _ | ⟨a, _ | ⟨b, _ | ⟨c, t⟩⟩⟩ <;> simp [write] at h ⊢

theorem read_wrong_count (stub : ChaincodeStub) (args : List String) (h : args.length ≠ 1) :
    read stub args
      = (shim.Error "Incorrect number of arguments. Expecting 2, function followed by 1 key",
          stub) := by
  rcases args with _ | ⟨a, _ | ⟨b, t⟩⟩ <;> simp [read] at h ⊢

theorem storeFactor_wrong_count (unmarshal : Unmarshal) (stub : ChaincodeStub)
    (args : List String) (h : args.length ≠ 1) :
    storeFactor unmarshal stub args
      = (shim.Error
          "Incorrect number of arguments. Expecting 2, function followed by the factor data",
          stub) := by
  rcases args with _ | ⟨a, _ | ⟨b, t⟩⟩ <;> simp [storeFactor] at h ⊢

theorem getFactor_wrong_count (stub : ChaincodeStub) (args : List String)
    (h : args.length ≠ 1) :
    getFactor stub args
      = (shim.Error "Incorrect number of arguments. Expecting 2, function followed by 1 address",
          stub) := by
  rcases args with _ | ⟨a, _ | ⟨b, t⟩⟩ <;> simp [getFactor] at h ⊢

theorem delete_wrong_count (stub : ChaincodeStub) (args : List String) (h : args.length ≠ 1) :
    delete stub args = (shim.Error "Incorrect number of arguments. Expecting 1", stub) := by
  rcases args with _ | ⟨a, _ | ⟨b, t⟩⟩ <;> simp [delete] at h ⊢

theorem query_wrong_count (stub : ChaincodeStub) (args : List String) (h : args.length ≠ 1) :
    query stub args
      = (shim.Error "Incorrect number of arguments. Expecting name of the person to query",
          stub) := by
  rcases args with _ | ⟨a, _ | ⟨b, t⟩⟩ <;> simp [query] at h ⊢

/-- What `Invoke` does with each of the seven function names it knows. -/
theorem Invoke_dispatch (unmarshal : Unmarshal) (stub : ChaincodeStub) (args : List String) :
    (stub.Args = "delete" :: args → Invoke unmarshal stub = returns (delete stub args))
    ∧ (stub.Args = "query" :: args → Invoke unmarshal stub = returns (query stub args))
    ∧ (stub.Args = "move" :: args → Invoke unmarshal stub = returns (move stub args))
    ∧ (stub.Args = "write" :: args → Invoke unmarshal stub = returns (write stub args))
    ∧ (stub.Args = "read" :: args → Invoke unmarshal stub = returns (read stub args))
    ∧ (stub.Args = "storeFactor" :: args →
        Invoke unmarshal stub = returns (storeFactor unmarshal stub args))
    ∧ (stub.Args = "getFactor" :: args → Invoke unmarshal stub = returns (getFactor stub args)) := by
  refine ⟨?_, ?_, ?_, ?_, ?_, ?_, ?_⟩ <;> intro h <;>
    simp [Invoke, GetFunctionAndParameters, h]

/-- C9: each of the seven operations that `Invoke` dispatches to, called with an argument list
whose length differs from the count it expects (3 for `move`, 2 for `write`, 1 for `read`,
`storeFactor`, `getFactor`, `delete` and `query`), returns its incorrect-number-of-arguments
error and the stub as it received it: no ledger call is issued and the world state is unchanged.
The same holds when the operation is reached through `Invoke`. -/
theorem wrong_argument_count (unmarshal : Unmarshal) (stub : ChaincodeStub)
    (args : List String) :
    (args.length ≠ 3 →
      move stub args
        = (shim.Error
            "Incorrect number of arguments. Expecting 4, function followed by 2 names and 1 value",
            stub)
      ∧ (stub.Args = "move" :: args → Invoke unmarshal stub = returns (move stub args)))
    ∧ (args.length ≠ 2 →
      write stub args
        = (shim.Error
            "Incorrect number of arguments. Expecting 3, function followed by 1 key and 1 value",
            stub)
      ∧ (stub.Args = "write" :: args → Invoke unmarshal stub = returns (write stub args)))
    ∧ (args.length ≠ 1 →
      read stub args
        = (shim.Error "Incorrect number of arguments. Expecting 2, function followed by 1 key",
            stub)
      ∧ storeFactor unmarshal stub args
        = (shim.Error
            "Incorrect number of arguments. Expecting 2, function followed by the factor data",
            stub)
      ∧ getFactor stub args
        = (shim.Error
            "Incorrect number of arguments. Expecting 2, function followed by 1 address", stub)
      ∧ delete stub args = (shim.Error "Incorrect number of arguments. Expecting 1", stub)
      ∧ query stub args
        = (shim.Error "Incorrect number of arguments. Expecting name of the person to query",
            stub)
      ∧ (stub.Args = "read" :: args → Invoke unmarshal stub = returns (read stub args))
      ∧ (stub.Args = "storeFactor" :: args →
          Invoke unmarshal stub = returns (storeFactor unmarshal stub args))
      ∧ (stub.Args = "getFactor" :: args →
          Invoke unmarshal stub = returns (getFactor stub args))
      ∧ (stub.Args = "delete" :: args → Invoke unmarshal stub = returns (delete stub args))
      ∧ (stub.Args = "query" :: args → Invoke unmarshal stub = returns (query stub args))) := by
  obtain ⟨hd, hq, hm, hw, hr, hs, hg⟩ := Invoke_dispatch unmarshal stub args
  exact ⟨fun h => ⟨move_wrong_count stub args h, hm⟩,
    fun h => ⟨write_wrong_count stub args h, hw⟩,
    fun h => ⟨read_wrong_count stub args h, storeFactor_wrong_count unmarshal stub args h,
      getFactor_wrong_count stub args h, delete_wrong_count stub args h,
      query_wrong_count stub args h, hr, hs, hg, hd, hq⟩⟩

/-- C9, witness: the empty argument list handed to each of the seven operations, and `move`
reached through `Invoke` with no parameter. -/
theorem wrong_argument_count_witness :
    move (emptyStub "move" []) []
      = (shim.Error
          "Incorrect number of arguments. Expecting 4, function followed by 2 names and 1 value",
          emptyStub "move" [])
    ∧ Invoke sampleUnmarshal (emptyStub "move" []) = returns (move (emptyStub "move" []) [])
    ∧ write (emptyStub "move" []) []
      = (shim.Error
          "Incorrect number of arguments. Expecting 3, function followed by 1 key and 1 value",
          emptyStub "move" [])
    ∧ read (emptyStub "move" []) []
      = (shim.Error "Incorrect number of arguments. Expecting 2, function followed by 1 key",
          emptyStub "move" [])
    ∧ delete (emptyStub "move" []) []
      = (shim.Error "Incorrect number of arguments. Expecting 1", emptyStub "move" []) :=
  ⟨((wrong_argument_count sampleUnmarshal (emptyStub "move" []) []).1 (by decide)).1,
    ((wrong_argument_count sampleUnmarshal (emptyStub "move" []) []).1 (by decide)).2 rfl,
    ((wrong_argument_count sampleUnmarshal (emptyStub "move" []) []).2.1 (by decide)).1,
    ((wrong_argument_count sampleUnmarshal (emptyStub "move" []) []).2.2 (by decide)).1,
    ((wrong_argument_count sampleUnmarshal (emptyStub "move" []) []).2.2 (by decide)).2.2.2.1⟩

/-! ## Initialisation -/

/-- C10, the code at the failing inputs: `Init` has no check of `len(args)`. With five
parameters it succeeds and writes both accounts; with none, or with three, it ends in an
index-out-of-range panic instead of an error response. -/
theorem Init_without_count_check :
    (Init (emptyStub "init" ["a", "1", "b", "2", "c"])).1 = Outcome.returned (shim.Success none)
    ∧ (Init (emptyStub "init" ["a", "1", "b", "2", "c"])).2.State "a" = some "1"
    ∧ (Init (emptyStub "init" ["a", "1", "b", "2", "c"])).2.State "b" = some "2"
    ∧ (Init (emptyStub "init" ["a", "1", "b", "2", "c"])).2.calls
        = [LedgerCall.put "a" "1", LedgerCall.put "b" "2"]
    ∧ (Init (emptyStub "init" [])).1 = Outcome.panicked 0 0
    ∧ (Init (emptyStub "init" ["a", "1", "b"])).1 = Outcome.panicked 3 3 := by
  decide

/-- The run of `Init` on four parameters, the two amounts well-formed, when its two ledger calls
succeed: the first account is written, then the second. -/
theorem Init_run (stub : ChaincodeStub) (function A a B b : String) (va vb : Int)
    (hArgs : stub.Args = [function, A, a, B, b])
    (ha : Atoi a = (va, none)) (hb : Atoi b = (vb, none)) (hok : stub.succeeds 2) :
    Init stub
      = (Outcome.returned (shim.Success none),
          { stub with
            State := fun k =>
              if k = B then some (Itoa vb) else if k = A then some (Itoa va) else stub.State k
            calls := stub.calls ++ [LedgerCall.put A (Itoa va), LedgerCall.put B (Itoa vb)] }) := by
  have h0 := succeeds_zero stub 1 hok
  have h1 := succeeds_one stub 0 hok
  simp [Init, GetFunctionAndParameters, PutState, nextFault, hArgs, ha, hb, h0, h1]

/-- C11: for distinct keys `A`, `B` and amounts `a`, `b` that `strconv.Atoi` accepts as `va`,
`vb`, when the ledger calls succeed `Init [A, a, B, b]` succeeds, after which `query [A]` returns
the decimal encoding of `va` and `query [B]` that of `vb`; if `a` or `b` is rejected by
`strconv.Atoi`, `Init` fails with the integer-value error and hands the stub back untouched: no
ledger call, nothing written. -/
theorem Init_then_query (stub : ChaincodeStub) (function A a B b : String)
    (hArgs : stub.Args = [function, A, a, B, b]) :
    (∀ va vb : Int, A ≠ B → Atoi a = (va, none) → Atoi b = (vb, none) → stub.succeeds 3 →
      (Init stub).1 = Outcome.returned (shim.Success none)
      ∧ (query (Init stub).2 [A]).1 = shim.Success (some (Itoa va))
      ∧ (query (Init stub).2 [B]).1 = shim.Success (some (Itoa vb)))
    ∧ ((Atoi a).2 ≠ none ∨ (Atoi b).2 ≠ none →
      Init stub
        = (Outcome.returned (shim.Error "Expecting integer value for asset holding"), stub)) := by
  constructor
  · intro va vb hAB ha hb hok
    have hok2 : stub.succeeds 2 := fun i hi => hok i (by omega)
    have h2 := succeeds_two stub 0 hok
    rw [Init_run stub function A a B b va vb hArgs ha hb hok2]
    simp [query, GetState, nextFault, h2, hAB]
  · intro h
    rcases h with h | h
    · obtain ⟨e, he⟩ := Option.ne_none_iff_exists'.mp h
      have ha : Atoi a = ((Atoi a).1, some e) := by rw [← he]
      simp only [Init, GetFunctionAndParameters, hArgs]
      simp only [List.getElem?_cons_zero, List.getElem?_cons_succ]
      rw [ha]
    · obtain ⟨e, he⟩ := Option.ne_none_iff_exists'.mp h
      have hb : Atoi b = ((Atoi b).1, some e) := by rw [← he]
      simp only [Init, GetFunctionAndParameters, hArgs]
      simp only [List.getElem?_cons_zero, List.getElem?_cons_succ]
      rw [hb]
      rcases hA : Atoi a with ⟨v, _ | e2⟩ <;> rfl

/-- C11, witness: `Init ["A", "100", "B", "200"]` followed by the two queries, and `Init` with
the amount `1x`. -/
theorem Init_then_query_witness :
    ((Init (emptyStub "init" ["A", "100", "B", "200"])).1 = Outcome.returned (shim.Success none)
      ∧ (query (Init (emptyStub "init" ["A", "100", "B", "200"])).2 ["A"]).1
          = shim.Success (some (Itoa 100))
      ∧ (query (Init (emptyStub "init" ["A", "100", "B", "200"])).2 ["B"]).1
          = shim.Success (some (Itoa 200)))
    ∧ Itoa 100 = "100" ∧ Itoa 200 = "200"
    ∧ Init (emptyStub "init" ["A", "100", "B", "1x"])
        = (Outcome.returned (shim.Error "Expecting integer value for asset holding"),
            emptyStub "init" ["A", "100", "B", "1x"]) :=
  ⟨(Init_then_query (emptyStub "init" ["A", "100", "B", "200"]) "init" "A" "100" "B" "200"
      rfl).1 100 200 (by decide) (by decide) (by decide) (fun _ _ => rfl),
    by decide, by decide,
    (Init_then_query (emptyStub "init" ["A", "100", "B", "1x"]) "init" "A" "100" "B" "1x"
      rfl).2 (Or.inr (by decide))⟩

/-! ## Unknown function names -/

/-- What `Invoke` does with a function name that is none of the seven it knows: the stub is
handed back untouched, and the outcome is built from the first parameter. -/
theorem Invoke_unknown (unmarshal : Unmarshal) (stub : ChaincodeStub) (function : String)
    (args : List String) (hArgs : stub.Args = function :: args)
    (h : function ∉ ["delete", "query", "move", "write", "read", "storeFactor", "getFactor"]) :
    Invoke unmarshal stub
      = (match args[0]? with
          | none => Outcome.panicked 0 args.length
          | some arg0 => Outcome.returned (shim.Error (unknownAction ++ arg0)), stub) := by
  simp only [List.mem_cons, List.mem_singleton, List.not_mem_nil, or_false, not_or] at h
  obtain ⟨h1, h2, h3, h4, h5, h6, h7⟩ := h
  simp only [Invoke, GetFunctionAndParameters, hArgs, h1, h2, h3, h4, h5, h6, h7, if_false]
  cases args <;> simp

/-- C12, the code at the failing inputs: for the unknown function name `transfer` with the
parameter `a`, the error message of `Invoke` ends in the parameter `a` and does not carry the
function name; with no parameter at all `Invoke` ends in an index-out-of-range panic instead of
an error response. In both runs the stub is handed back untouched. -/
theorem Invoke_unknown_function_message :
    Invoke sampleUnmarshal (emptyStub "transfer" ["a"])
      = (Outcome.returned (shim.Error
          "Unknown action, check the first argument, must be one of 'delete', 'query', or 'move'. But got: a"),
          emptyStub "transfer" ["a"])
    ∧ Invoke sampleUnmarshal (emptyStub "transfer" [])
      = (Outcome.panicked 0 0, emptyStub "transfer" []) :=
  ⟨(Invoke_unknown sampleUnmarshal (emptyStub "transfer" ["a"]) "transfer" ["a"] rfl
      (by decide)).trans rfl,
    (Invoke_unknown sampleUnmarshal (emptyStub "transfer" []) "transfer" [] rfl
      (by decide)).trans rfl⟩

/-! ## Storage errors between two writes -/

/-- C13, as amended: the two-write operations are not rolled back. For `move [A, B, amount]` on
distinct keys holding the decimal encodings of the `int` values `a0`, `b0`, with an amount that
parses to `x`: if the two reads and the first put succeed and the second put fails with the
storage error `e`, then `move` returns the failure carrying `e`, `A` holds the decimal encoding
of `a0 - x` computed with 64-bit wrap-around (the exact `a0 - x` whenever that lies in the `int`
range) and `B` still holds `b0`.
For `Init [A, a, B, b]` with well-formed amounts: if the first put succeeds and the second fails
with `e`, then `Init` returns the failure carrying `e` and `A` holds the encoding of its amount. -/
theorem multi_write_no_rollback :
    (∀ (stub : ChaincodeStub) (A B amount : String) (a0 b0 x : Int) (e : String),
      A ≠ B → inIntRange a0 → inIntRange b0 →
      stub.State A = some (Itoa a0) → stub.State B = some (Itoa b0) →
      Atoi amount = (x, none) →
      stub.succeeds 3 → stub.fault (stub.calls.length + 3) = some e →
      (move stub [A, B, amount]).1 = shim.Error e
      ∧ (move stub [A, B, amount]).2.State A = some (Itoa (wrapInt (a0 - x)))
      ∧ (inIntRange (a0 - x) → (move stub [A, B, amount]).2.State A = some (Itoa (a0 - x)))
      ∧ (move stub [A, B, amount]).2.State B = some (Itoa b0))
    ∧ (∀ (stub : ChaincodeStub) (function A a B b : String) (va vb : Int) (e : String),
      stub.Args = [function, A, a, B, b] →
      Atoi a = (va, none) → Atoi b = (vb, none) →
      stub.succeeds 1 → stub.fault (stub.calls.length + 1) = some e →
      (Init stub).1 = Outcome.returned (shim.Error e)
      ∧ (Init stub).2.State A = some (Itoa va)
      ∧ (A ≠ B → (Init stub).2.State B = stub.State B)) := by
  constructor
  · intro stub A B amount a0 b0 x e hAB ha hb hA hB hX hok hfail
    have h0 := succeeds_zero stub 2 hok
    have h1 := succeeds_one stub 1 hok
    have h2 := succeeds_two stub 0 hok
    have hAv : (Atoi (Itoa a0)).1 = a0 := by rw [Atoi_Itoa a0 ha]
    have hrun : move stub [A, B, amount]
        = (shim.Error e,
            { stub with
              State := fun k =>
                if k = A then some (Itoa (wrapInt (a0 - x))) else stub.State k
              calls := stub.calls ++ [LedgerCall.get A, LedgerCall.get B,
                LedgerCall.put A (Itoa (wrapInt (a0 - x))),
                LedgerCall.put B (Itoa (wrapInt ((Atoi (Itoa b0)).1 + x)))] }) := by
      simp [move, GetState, PutState, nextFault, h0, h1, h2, hfail, hA, hB, hX, hAv]
    rw [hrun]
    refine ⟨rfl, by simp, ?_, ?_⟩
    · intro hr
      simp [wrapInt_of_inIntRange _ hr]
    · simp [Ne.symm hAB, hB]
  · intro stub function A a B b va vb e hArgs ha hb hok hfail
    have h0 := succeeds_zero stub 0 hok
    have hrun : Init stub
        = (Outcome.returned (shim.Error e),
            { stub with
              State := fun k => if k = A then some (Itoa va) else stub.State k
              calls := stub.calls
                ++ [LedgerCall.put A (Itoa va), LedgerCall.put B (Itoa vb)] }) := by
      simp [Init, GetFunctionAndParameters, PutState, nextFault, hArgs, ha, hb, h0, hfail]
    rw [hrun]
    refine ⟨rfl, by simp, ?_⟩
    intro hAB
    simp [Ne.symm hAB]

/-- C13, witness: the payment of 30 from `a` (100) to `b` (200) whose ledger call number 3, the
second put, fails with `disk full`; and `Init ["a", "1", "b", "2"]` whose call number 1, the
second put, fails. -/
theorem multi_write_no_rollback_witness :
    ((move (faultyStub 3 "disk full" [] "100" "200") ["a", "b", "30"]).1
        = shim.Error "disk full"
      ∧ (move (faultyStub 3 "disk full" [] "100" "200") ["a", "b", "30"]).2.State "a"
          = some (Itoa (wrapInt (100 - 30)))
      ∧ (move (faultyStub 3 "disk full" [] "100" "200") ["a", "b", "30"]).2.State "a"
          = some (Itoa (100 - 30))
      ∧ (move (faultyStub 3 "disk full" [] "100" "200") ["a", "b", "30"]).2.State "b"
          = some (Itoa 200))
    ∧ Itoa (100 - 30) = "70" ∧ Itoa 200 = "200"
    ∧ (Init (faultyStub 1 "disk full" ["init", "a", "1", "b", "2"] "100" "200")).1
        = Outcome.returned (shim.Error "disk full")
    ∧ (Init (faultyStub 1 "disk full" ["init", "a", "1", "b", "2"] "100" "200")).2.State "a"
        = some (Itoa 1)
    ∧ (Init (faultyStub 1 "disk full" ["init", "a", "1", "b", "2"] "100" "200")).2.State "b"
        = (faultyStub 1 "disk full" ["init", "a", "1", "b", "2"] "100" "200").State "b" :=
  have hm := multi_write_no_rollback.1 (faultyStub 3 "disk full" [] "100" "200") "a" "b" "30"
    100 200 30 "disk full" (by decide) (by decide) (by decide) (by decide) (by decide)
    (by decide) (fun i hi => by interval_cases i <;> rfl) rfl
  have hi := multi_write_no_rollback.2
    (faultyStub 1 "disk full" ["init", "a", "1", "b", "2"] "100" "200") "init" "a" "1" "b" "2"
    1 2 "disk full" rfl (by decide) (by decide) (fun i hi => by interval_cases i; rfl) rfl
  ⟨⟨hm.1, hm.2.1, hm.2.2.1 (by decide), hm.2.2.2⟩, by decide, by decide,
    hi.1, hi.2.1, hi.2.2 (by decide)⟩

/-- C13, counterexample: `a` holds the smallest `int`, `b` holds 0, the amount is 1 and the
second put, ledger call number 3, fails with `disk full`. `move` returns that failure, `b`
still holds 0, and `a` holds the largest `int`, which is not the decimal encoding of
`a0 - x`. -/
theorem no_rollback_overflow_counterexample :
    (faultyStub 3 "disk full" [] (Itoa minInt) (Itoa 0)).succeeds 3
    ∧ (faultyStub 3 "disk full" [] (Itoa minInt) (Itoa 0)).fault
        ((faultyStub 3 "disk full" [] (Itoa minInt) (Itoa 0)).calls.length + 3)
        = some "disk full"
    ∧ "a" ≠ "b" ∧ inIntRange minInt ∧ inIntRange 0
    ∧ (faultyStub 3 "disk full" [] (Itoa minInt) (Itoa 0)).State "a" = some (Itoa minInt)
    ∧ (faultyStub 3 "disk full" [] (Itoa minInt) (Itoa 0)).State "b" = some (Itoa 0)
    ∧ Atoi "1" = (1, none)
    ∧ (move (faultyStub 3 "disk full" [] (Itoa minInt) (Itoa 0)) ["a", "b", "1"]).1
        = shim.Error "disk full"
    ∧ (move (faultyStub 3 "disk full" [] (Itoa minInt) (Itoa 0)) ["a", "b", "1"]).2.State "b"
        = some (Itoa 0)
    ∧ (move (faultyStub 3 "disk full" [] (Itoa minInt) (Itoa 0)) ["a", "b", "1"]).2.State "a"
        = some "9223372036854775807"
    ∧ (move (faultyStub 3 "disk full" [] (Itoa minInt) (Itoa 0)) ["a", "b", "1"]).2.State "a"
        ≠ some (Itoa (minInt - 1)) :=
  ⟨fun i hi => by interval_cases i <;> rfl, by decide⟩

/-! ## Self-transfer, machine arithmetic -/

/-- C16: for every key `A` holding the decimal encoding of the `int` value `a0` and every `int`
amount `x` with `a0 + x` in the `int` range, when the four ledger calls succeed
`move [A, A, decimal x]` succeeds and leaves `A` holding the decimal encoding of `a0 + x`: the
balance is read twice, then the write of `a0 - x` is overwritten by the write of `a0 + x`, so
the balance changes by `x` (and differs from `a0` unless `x` is 0). -/
theorem move_self_transfer (stub : ChaincodeStub) (A : String) (a0 x : Int)
    (ha : inIntRange a0) (hx : inIntRange x) (hsum : inIntRange (a0 + x))
    (hA : stub.State A = some (Itoa a0)) (hok : stub.succeeds 4) :
    (move stub [A, A, Itoa x]).1 = shim.Success none
    ∧ (move stub [A, A, Itoa x]).2.State A = some (Itoa (a0 + x))
    ∧ (move stub [A, A, Itoa x]).2.calls
        = stub.calls ++ [LedgerCall.get A, LedgerCall.get A,
            LedgerCall.put A (Itoa (wrapInt (a0 - x))), LedgerCall.put A (Itoa (a0 + x))]
    ∧ (x ≠ 0 → a0 + x ≠ a0) := by
  rw [move_run stub A A (Itoa x) (Itoa a0) (Itoa a0) x hA hA (Atoi_Itoa x hx) hok]
  have hAv : (Atoi (Itoa a0)).1 = a0 := by rw [Atoi_Itoa a0 ha]
  refine ⟨rfl, ?_, ?_, ?_⟩
  · simp [hAv, wrapInt_of_inIntRange _ hsum]
  · simp [hAv, wrapInt_of_inIntRange _ hsum]
  · intro h0 h
    omega

/-- C16, witness: the payment of 30 from `a` (holding 100) to `a` itself leaves 130. -/
theorem move_self_transfer_witness :
    (move (sampleStub "100" "200") ["a", "a", Itoa 30]).1 = shim.Success none
    ∧ (move (sampleStub "100" "200") ["a", "a", Itoa 30]).2.State "a" = some (Itoa (100 + 30))
    ∧ (move (sampleStub "100" "200") ["a", "a", Itoa 30]).2.calls
        = (sampleStub "100" "200").calls ++ [LedgerCall.get "a", LedgerCall.get "a",
            LedgerCall.put "a" (Itoa (wrapInt (100 - 30))), LedgerCall.put "a" (Itoa (100 + 30))]
    ∧ Itoa (100 + 30) = "130"
    ∧ (100 : Int) + 30 ≠ 100 :=
  have h := move_self_transfer (sampleStub "100" "200") "a" 100 30 (by decide) (by decide)
    (by decide) (by decide) (fun _ _ => rfl)
  ⟨h.1, h.2.1, h.2.2.1, by decide, h.2.2.2 (by decide)⟩

/-- C17: with Go's `int` as 64-bit two's complement, for all `int` values `a0`, `b0`, `x` held
as decimal encodings by two present keys and passed as amount, the two values that `move`
writes are `a0 - x` and `b0 + x` computed with wrap-around; their wrapped sum equals the wrapped
sum `a0 + b0`; and whenever `a0 - x` and `b0 + x` both lie in the `int` range the values written
are the exact `a0 - x` and `b0 + x`. -/
theorem move_wrapped_conservation (stub : ChaincodeStub) (A B : String) (a0 b0 x : Int)
    (ha : inIntRange a0) (hb : inIntRange b0) (hx : inIntRange x)
    (hA : stub.State A = some (Itoa a0)) (hB : stub.State B = some (Itoa b0))
    (hok : stub.succeeds 4) :
    (move stub [A, B, Itoa x]).2.calls
        = stub.calls ++ [LedgerCall.get A, LedgerCall.get B,
            LedgerCall.put A (Itoa (wrapInt (a0 - x))),
            LedgerCall.put B (Itoa (wrapInt (b0 + x)))]
    ∧ inIntRange (wrapInt (a0 - x)) ∧ inIntRange (wrapInt (b0 + x))
    ∧ wrapInt (wrapInt (a0 - x) + wrapInt (b0 + x)) = wrapInt (a0 + b0)
    ∧ (inIntRange (a0 - x) → inIntRange (b0 + x) →
        wrapInt (a0 - x) = a0 - x ∧ wrapInt (b0 + x) = b0 + x
        ∧ (move stub [A, B, Itoa x]).2.calls
            = stub.calls ++ [LedgerCall.get A, LedgerCall.get B,
                LedgerCall.put A (Itoa (a0 - x)), LedgerCall.put B (Itoa (b0 + x))]) := by
  rw [move_run stub A B (Itoa x) (Itoa a0) (Itoa b0) x hA hB (Atoi_Itoa x hx) hok]
  have hAv : (Atoi (Itoa a0)).1 = a0 := by rw [Atoi_Itoa a0 ha]
  have hBv : (Atoi (Itoa b0)).1 = b0 := by rw [Atoi_Itoa b0 hb]
  have hsum : wrapInt (wrapInt (a0 - x) + wrapInt (b0 + x)) = wrapInt (a0 + b0) := by
    rw [wrapInt_add_wrapInt]; congr 1; omega
  have hr : ∀ z : Int, inIntRange (wrapInt z) := by
    intro z
    unfold inIntRange wrapInt minInt maxInt
    omega
  refine ⟨by simp [hAv, hBv], hr _, hr _, hsum, ?_⟩
  intro h1 h2
  refine ⟨wrapInt_of_inIntRange _ h1, wrapInt_of_inIntRange _ h2, ?_⟩
  simp [hAv, hBv, wrapInt_of_inIntRange _ h1, wrapInt_of_inIntRange _ h2]

/-- C17, witness: the smallest `int` under `a`, 0 under `b` and the amount 1: the subtraction
wraps to the largest `int`, and the wrapped sum is still that of the two balances. -/
theorem move_wrapped_conservation_witness :
    (move (sampleStub (Itoa minInt) (Itoa 0)) ["a", "b", Itoa 1]).2.calls
        = (sampleStub (Itoa minInt) (Itoa 0)).calls ++ [LedgerCall.get "a", LedgerCall.get "b",
            LedgerCall.put "a" (Itoa (wrapInt (minInt - 1))),
            LedgerCall.put "b" (Itoa (wrapInt (0 + 1)))]
    ∧ inIntRange (wrapInt (minInt - 1)) ∧ inIntRange (wrapInt (0 + 1))
    ∧ wrapInt (wrapInt (minInt - 1) + wrapInt (0 + 1)) = wrapInt (minInt + 0)
    ∧ wrapInt (minInt - 1) = maxInt :=
  have h := move_wrapped_conservation (sampleStub (Itoa minInt) (Itoa 0)) "a" "b" minInt 0 1
    (by decide) (by decide) (by decide) rfl rfl (fun _ _ => rfl)
  ⟨h.1, h.2.1, h.2.2.1, h.2.2.2.1, by decide⟩

/-! ## Frame -/

theorem GetState_State (stub : ChaincodeStub) (key : String) :
    (stub.GetState key).2.State = stub.State := by
  simp only [GetState]
  split <;> rfl

theorem PutState_State_of_ne (stub : ChaincodeStub) (key value k : String) (h : k ≠ key) :
    (stub.PutState key value).2.State k = stub.State k := by
  simp only [PutState]
  split
  · rfl
  · simp [h]

theorem DelState_State_of_ne (stub : ChaincodeStub) (key k : String) (h : k ≠ key) :
    (stub.DelState key).2.State k = stub.State k := by
  simp only [DelState]
  split
  · rfl
  · simp [h]

/-- The keys other than `A` and `B` after `move [A, B, amount]`, whatever the run. -/
theorem move_frame (stub : ChaincodeStub) (A B amount k : String) (hA : k ≠ A) (hB : k ≠ B) :
    (move stub [A, B, amount]).2.State k = stub.State k := by
  simp only [move]
  rcases h1 : stub.GetState A with ⟨r1, s1⟩
  have e1 : s1.State = stub.State := by rw [← GetState_State stub A, h1]
  rcases r1 with _ | _ | va
  · simp [e1]
  · simp [e1]
  · simp only []
    rcases h2 : s1.GetState B with ⟨r2, s2⟩
    have e2 : s2.State = stub.State := by rw [← e1, ← GetState_State s1 B, h2]
    rcases r2 with _ | _ | vb
    · simp [e2]
    · simp [e2]
    · simp only []
      rcases hX : Atoi amount with ⟨X, _ | err⟩
      · simp only []
        rcases h3 : s2.PutState A (Itoa (wrapInt ((Atoi va).1 - X))) with ⟨r3, s3⟩
        have e3 : s3.State k = stub.State k := by
          rw [← e2, ← PutState_State_of_ne s2 A _ k hA, h3]
        rcases r3 with _ | e
        · simp only []
          rcases h4 : s3.PutState B (Itoa (wrapInt ((Atoi vb).1 + X))) with ⟨r4, s4⟩
          have e4 : s4.State k = stub.State k := by
            rw [← e3, ← PutState_State_of_ne s3 B _ k hB, h4]
          rcases r4 with _ | e <;> simpa using e4
        · simpa using e3
      · simp [e2]

/-- The keys other than `A` and `B` after `Init [A, a, B, b]`, whatever the run. -/
theorem Init_frame (stub : ChaincodeStub) (function A a B b k : String)
    (hArgs : stub.Args = [function, A, a, B, b]) (hA : k ≠ A) (hB : k ≠ B) :
    (Init stub).2.State k = stub.State k := by
  simp only [Init, GetFunctionAndParameters, hArgs, List.getElem?_cons_zero,
    List.getElem?_cons_succ]
  rcases ha : Atoi a with ⟨va, _ | err⟩
  · simp only []
    rcases hb : Atoi b with ⟨vb, _ | err⟩
    · simp only []
      rcases h3 : stub.PutState A (Itoa va) with ⟨r3, s3⟩
      have e3 : s3.State k = stub.State k := by
        rw [← PutState_State_of_ne stub A _ k hA, h3]
      rcases r3 with _ | e
      · simp only []
        rcases h4 : s3.PutState B (Itoa vb) with ⟨r4, s4⟩
        have e4 : s4.State k = stub.State k := by
          rw [← e3, ← PutState_State_of_ne s3 B _ k hB, h4]
        rcases r4 with _ | e <;> simpa using e4
      · simpa using e3
    · rfl
  · rfl

/-- C19: each mutating operation changes only the keys it names. For every ledger, whatever
storage errors its calls report, and every key `k`: `move [A, B, x]`, successful or not, leaves
`k` as it was when `k` is neither `A` nor `B`; `write [key, v]` and `delete [key]` leave `k` as
it was when `k` differs from `key`; `Init [A, a, B, b]` leaves `k` as it was when `k` is neither
`A` nor `B`; `storeFactor [s]` leaves `k` as it was when `k` differs from the address that
decoding `s` leaves in the record. -/
theorem mutations_frame (unmarshal : Unmarshal) (stub : ChaincodeStub) (k : String) :
    (∀ A B x : String, k ≠ A → k ≠ B → (move stub [A, B, x]).2.State k = stub.State k)
    ∧ (∀ key v : String, k ≠ key → (write stub [key, v]).2.State k = stub.State k)
    ∧ (∀ key : String, k ≠ key → (delete stub [key]).2.State k = stub.State k)
    ∧ (∀ function A a B b : String, stub.Args = [function, A, a, B, b] → k ≠ A → k ≠ B →
        (Init stub).2.State k = stub.State k)
    ∧ (∀ s : String, k ≠ (unmarshal s Factor.zero).1.Address →
        (storeFactor unmarshal stub [s]).2.State k = stub.State k) := by
  refine ⟨fun A B x hA hB => move_frame stub A B x k hA hB, ?_, ?_,
    fun function A a B b hArgs hA hB => Init_frame stub function A a B b k hArgs hA hB, ?_⟩
  · intro key v h
    simp only [write]
    rcases h1 : stub.PutState key v with ⟨r, s1⟩
    have e1 : s1.State k = stub.State k := by rw [← PutState_State_of_ne stub key v k h, h1]
    rcases r with _ | e <;> simpa using e1
  · intro key h
    simp only [delete]
    rcases h1 : stub.DelState key with ⟨r, s1⟩
    have e1 : s1.State k = stub.State k := by rw [← DelState_State_of_ne stub key k h, h1]
    rcases r with _ | e <;> simpa using e1
  · intro s h
    simp only [storeFactor]
    rcases h1 : stub.PutState (unmarshal s Factor.zero).1.Address s with ⟨r, s1⟩
    have e1 : s1.State k = stub.State k := by
      rw [← PutState_State_of_ne stub _ s k h, h1]
    rcases r with _ | e <;> simpa using e1

/-- C19, witness: the key `b` across a payment from `a` to `c` that fails, a write and a delete
of `a`, an `Init` of `a` and `c`, and a `storeFactor` of the sample record with address `X`. -/
theorem mutations_frame_witness :
    (move (sampleStub "100" "200") ["a", "c", "30"]).2.State "b"
        = (sampleStub "100" "200").State "b"
    ∧ (write (sampleStub "100" "200") ["a", "v"]).2.State "b"
        = (sampleStub "100" "200").State "b"
    ∧ (delete (sampleStub "100" "200") ["a"]).2.State "b" = (sampleStub "100" "200").State "b"
    ∧ (Init (faultyStub 1 "disk full" ["init", "a", "1", "c", "2"] "100" "200")).2.State "b"
        = (faultyStub 1 "disk full" ["init", "a", "1", "c", "2"] "100" "200").State "b"
    ∧ (storeFactor sampleUnmarshal (sampleStub "100" "200") [sampleFactorJSON]).2.State "b"
        = (sampleStub "100" "200").State "b" :=
  ⟨(mutations_frame sampleUnmarshal (sampleStub "100" "200") "b").1 "a" "c" "30"
      (by decide) (by decide),
    (mutations_frame sampleUnmarshal (sampleStub "100" "200") "b").2.1 "a" "v" (by decide),
    (mutations_frame sampleUnmarshal (sampleStub "100" "200") "b").2.2.1 "a" (by decide),
    (mutations_frame sampleUnmarshal
      (faultyStub 1 "disk full" ["init", "a", "1", "c", "2"] "100" "200") "b").2.2.2.1
      "init" "a" "1" "c" "2" rfl (by decide) (by decide),
    (mutations_frame sampleUnmarshal (sampleStub "100" "200") "b").2.2.2.2 sampleFactorJSON
      (by decide)⟩

/-! ## What `strconv.Atoi` can return -/

theorem digitVal_le (c : Char) (h : isDigit c = true) : digitVal c ≤ 9 := by
  simp only [isDigit, Bool.and_eq_true, decide_eq_true_eq] at h
  unfold digitVal
  omega

theorem atoiFastLoop_bound (l : List Char) (a n : Nat) (h : atoiFastLoop l a = some n) :
    n + 1 ≤ (a + 1) * 10 ^ l.length := by
  induction l generalizing a with
  | nil =>
    simp only [atoiFastLoop, Option.some.injEq] at h
    simp [h]
  | cons c cs ih =>
    simp only [atoiFastLoop] at h
    split at h
    · rename_i hc
      have hd := digitVal_le c hc
      have h1 := ih _ h
      have h2 : (a * 10 + digitVal c + 1) * 10 ^ cs.length ≤ (a * 10 + 10) * 10 ^ cs.length :=
        Nat.mul_le_mul_right _ (by omega)
      have h3 : (a * 10 + 10) * 10 ^ cs.length = (a + 1) * 10 ^ (c :: cs).length := by
        simp only [List.length_cons, pow_succ]
        ring
      omega
    · exact absurd h (by simp)

theorem ParseInt_cases (s : List Char) :
    ParseInt s = (0, some NumError.ErrSyntax) ∨ ParseInt s = (maxInt, some NumError.ErrRange)
    ∨ ParseInt s = (minInt, some NumError.ErrRange)
    ∨ ∃ v, ParseInt s = (v, none) ∧ inIntRange v := by
  unfold ParseInt
  split
  · exact Or.inl rfl
  · rename_i c cs
    simp only []
    split
    · exact Or.inl rfl
    · rename_i un e hsyn hpu
      by_cases hneg : c = '-'
      · by_cases hb : un > 9223372036854775808
        · rw [if_neg (by simp [hneg]), if_pos ⟨hneg, hb⟩]
          exact Or.inr (Or.inr (Or.inl rfl))
        · rw [if_neg (by simp [hneg]), if_neg (by simp [hb]), if_pos hneg]
          refine Or.inr (Or.inr (Or.inr ⟨_, rfl, ?_⟩))
          unfold inIntRange minInt maxInt
          omega
      · by_cases hb : un ≥ 9223372036854775808
        · rw [if_pos ⟨hneg, hb⟩]
          exact Or.inr (Or.inl rfl)
        · rw [if_neg (by simp [hb]), if_neg (by simp [hneg]), if_neg hneg]
          refine Or.inr (Or.inr (Or.inr ⟨_, rfl, ?_⟩))
          unfold inIntRange minInt maxInt
          omega

/-- The four kinds of result of `strconv.Atoi`: a syntax error with the value 0, a range error
with the nearest bound of the `int` range, or an `int` without error. -/
theorem atoiChars_cases (s : List Char) :
    atoiChars s = (0, some NumError.ErrSyntax) ∨ atoiChars s = (maxInt, some NumError.ErrRange)
    ∨ atoiChars s = (minInt, some NumError.ErrRange)
    ∨ ∃ v, atoiChars s = (v, none) ∧ inIntRange v := by
  unfold atoiChars
  by_cases hlen : 0 < s.length ∧ s.length < 19
  · rw [if_pos hlen]
    cases s with
    | nil => exact Or.inl rfl
    | cons c cs =>
      simp only []
      have hl : (if c = '-' ∨ c = '+' then cs else c :: cs).length ≤ 18 := by
        split <;> simp only [List.length_cons] at hlen ⊢ <;> omega
      generalize (if c = '-' ∨ c = '+' then cs else c :: cs) = body at hl ⊢
      by_cases hb : body.length < 1
      · rw [if_pos hb]
        exact Or.inl rfl
      · rw [if_neg hb]
        rcases hn : atoiFastLoop body 0 with _ | n
        · exact Or.inl rfl
        · refine Or.inr (Or.inr (Or.inr ⟨_, rfl, ?_⟩))
          have hbd := atoiFastLoop_bound _ 0 n hn
          have hp : 10 ^ body.length ≤ 10 ^ 18 := Nat.pow_le_pow_right (by decide) hl
          have hn18 : n < 1000000000000000000 := by
            norm_num at hp
            omega
          unfold inIntRange minInt maxInt
          split <;> omega
  · rw [if_neg hlen]
    exact ParseInt_cases s

theorem Atoi_inIntRange (s : String) : inIntRange (Atoi s).1 := by
  unfold Atoi
  rcases atoiChars_cases s.data with h | h | h | ⟨v, h, hv⟩
  · rw [h]; decide
  · rw [h]; decide
  · rw [h]; decide
  · rw [h]; exact hv

theorem Atoi_syntax_value (s : String) (h : (Atoi s).2 = some NumError.ErrSyntax) :
    (Atoi s).1 = 0 := by
  unfold Atoi at h ⊢
  rcases atoiChars_cases s.data with h1 | h1 | h1 | ⟨v, h1, _⟩
  · rw [h1]
  · rw [h1] at h; exact absurd h (by decide)
  · rw [h1] at h; exact absurd h (by decide)
  · rw [h1] at h; exact absurd h (by simp)

theorem wrapInt_inIntRange (z : Int) : inIntRange (wrapInt z) := by
  unfold inIntRange wrapInt minInt maxInt
  omega

theorem parseUintLoop_not_syntax (l : List Char) (a : Nat) (h : allDigits l) :
    (parseUintLoop l a).2 ≠ some NumError.ErrSyntax := by
  induction l generalizing a with
  | nil => simp [parseUintLoop]
  | cons c cs ih =>
    have hc : isDigit c = true := h c (List.mem_cons_self c cs)
    have hcs : allDigits cs := fun d hd => h d (List.mem_cons_of_mem c hd)
    simp only [parseUintLoop, hc, if_true]
    split
    · simp
    · split
      · simp
      · exact ih _ hcs

/-- A string that is syntactically a base-10 integer is never rejected with a syntax error:
a syntax error of `strconv.Atoi` implies that the string is not of that shape. -/
theorem not_isDecimal_of_syntax (s : String) (h : (Atoi s).2 = some NumError.ErrSyntax) :
    isDecimal s = false := by
  by_contra hd
  simp only [Bool.not_eq_false] at hd
  unfold Atoi at h
  unfold isDecimal at hd
  rcases hs : s.data with _ | ⟨c, cs⟩
  · rw [hs] at hd
    simp at hd
  · rw [hs] at hd h
    simp only [] at hd
    have hbody : allDigits (if c = '-' ∨ c = '+' then cs else c :: cs)
        ∧ (if c = '-' ∨ c = '+' then cs else c :: cs) ≠ [] := by
      by_cases hsign : c = '-' ∨ c = '+'
      · rw [if_pos hsign] at hd ⊢
        simp only [Bool.and_eq_true, Bool.not_eq_true', List.isEmpty_eq_false,
          List.all_eq_true] at hd
        exact ⟨fun d hdm => hd.2 d hdm, hd.1⟩
      · rw [if_neg hsign] at hd ⊢
        simp only [List.all_eq_true] at hd
        exact ⟨fun d hdm => hd d hdm, by simp⟩
    have hswap : (if c = '+' ∨ c = '-' then cs else c :: cs)
        = (if c = '-' ∨ c = '+' then cs else c :: cs) := by
      by_cases hsign : c = '-' ∨ c = '+'
      · rw [if_pos hsign, if_pos (Or.symm hsign)]
      · rw [if_neg hsign, if_neg (fun h => hsign (Or.symm h))]
    unfold atoiChars at h
    by_cases hlen : 0 < (c :: cs).length ∧ (c :: cs).length < 19
    · rw [if_pos hlen] at h
      simp only [] at h
      generalize (if c = '-' ∨ c = '+' then cs else c :: cs) = body at hbody h
      have hl : ¬ body.length < 1 := by
        have := List.length_pos.mpr hbody.2
        omega
      rw [if_neg hl, atoiFastLoop_digits body 0 hbody.1] at h
      simp at h
    · rw [if_neg hlen] at h
      unfold ParseInt at h
      simp only [] at h
      rw [hswap] at h
      generalize (if c = '-' ∨ c = '+' then cs else c :: cs) = body at hbody h
      have hpu : (ParseUint body).2 ≠ some NumError.ErrSyntax := by
        unfold ParseUint
        split
        · exact absurd rfl hbody.2
        · exact parseUintLoop_not_syntax _ 0 hbody.1
      rcases hp : ParseUint body with ⟨un, e⟩
      rw [hp] at h hpu
      simp only [] at hpu
      split at h
      · rename_i heq
        simp only [Prod.mk.injEq] at heq
        exact hpu heq.2
      · split_ifs at h <;> simp at h

theorem ParseInt_range_value (s : List Char) (h : (ParseInt s).2 = some NumError.ErrRange) :
    (ParseInt s).1 = if s.head? = some '-' then minInt else maxInt := by
  unfold ParseInt at h ⊢
  split at h
  · exact absurd h (by decide)
  · rename_i c cs
    simp only [List.head?_cons, Option.some.injEq] at h ⊢
    split at h
    · exact absurd h (by decide)
    · rename_i un e hsyn hpu
      by_cases hneg : c = '-'
      · by_cases hb : un > 9223372036854775808
        · rw [if_neg (by simp [hneg]), if_pos ⟨hneg, hb⟩, if_pos hneg]
        · rw [if_neg (by simp [hneg]), if_neg (by simp [hb])] at h
          exact absurd h (by simp)
      · by_cases hb : un ≥ 9223372036854775808
        · rw [if_pos ⟨hneg, hb⟩, if_neg hneg]
        · rw [if_neg (by simp [hb]), if_neg (by simp [hneg])] at h
          exact absurd h (by simp)

/-- A range error of `strconv.Atoi` comes with the bound of the `int` range on the side of the
sign: the smallest `int` for a string that starts with a minus sign, the largest otherwise. -/
theorem Atoi_range_value (s : String) (h : (Atoi s).2 = some NumError.ErrRange) :
    (Atoi s).1 = if s.data.head? = some '-' then minInt else maxInt := by
  unfold Atoi atoiChars at h ⊢
  by_cases hlen : 0 < s.data.length ∧ s.data.length < 19
  · rw [if_pos hlen] at h
    exfalso
    rcases hs : s.data with _ | ⟨c, cs⟩
    · rw [hs] at h
      exact absurd h (by decide)
    · rw [hs] at h
      simp only [] at h
      generalize (if c = '-' ∨ c = '+' then cs else c :: cs) = body at h
      by_cases hb : body.length < 1
      · rw [if_pos hb] at h
        exact absurd h (by decide)
      · rw [if_neg hb] at h
        rcases hn : atoiFastLoop body 0 with _ | n
        · rw [hn] at h
          exact absurd h (by simp)
        · rw [hn] at h
          exact absurd h (by simp)
  · rw [if_neg hlen] at h ⊢
    exact ParseInt_range_value s.data h

/-! ## Malformed stored balances -/

/-- C18, as amended: for distinct present keys `A`, `B` and an amount that parses to `x`, when
the four ledger calls succeed `move [A, B, amount]` succeeds whatever bytes the two keys hold;
if `strconv.Atoi` rejects the bytes under `A` with a syntax error the balance counts as 0 and
`A` is overwritten with the decimal encoding of `0 - x` as Go computes it (the exact `0 - x`
unless `x` is the smallest `int`); if it rejects the bytes under `B` with a syntax error, `B` is
overwritten with the decimal encoding of `0 + x`. A string rejected with a syntax error is never
syntactically a base-10 integer. If `strconv.Atoi` rejects the bytes under `A` (or under `B`)
with a range error, the balance counts as the bound of the `int` range on the side of the sign,
the smallest `int` for bytes that start with a minus sign and the largest otherwise, and the key
is overwritten with the decimal encoding of that bound minus `x` (plus `x`), computed with
64-bit wrap-around. -/
theorem move_malformed_balance (stub : ChaincodeStub) (A B amount va vb : String) (x : Int)
    (hAB : A ≠ B) (hA : stub.State A = some va) (hB : stub.State B = some vb)
    (hX : Atoi amount = (x, none)) (hok : stub.succeeds 4) :
    (move stub [A, B, amount]).1 = shim.Success none
    ∧ ((Atoi va).2 = some NumError.ErrSyntax →
        (move stub [A, B, amount]).2.State A = some (Itoa (wrapInt (0 - x))))
    ∧ ((Atoi vb).2 = some NumError.ErrSyntax →
        (move stub [A, B, amount]).2.State B = some (Itoa (0 + x)))
    ∧ (x ≠ minInt → wrapInt (0 - x) = 0 - x)
    ∧ (∀ s : String, (Atoi s).2 = some NumError.ErrSyntax → isDecimal s = false)
    ∧ ((Atoi va).2 = some NumError.ErrRange →
        (Atoi va).1 = (if va.data.head? = some '-' then minInt else maxInt)
        ∧ (move stub [A, B, amount]).2.State A
          = some (Itoa (wrapInt ((if va.data.head? = some '-' then minInt else maxInt) - x))))
    ∧ ((Atoi vb).2 = some NumError.ErrRange →
        (Atoi vb).1 = (if vb.data.head? = some '-' then minInt else maxInt)
        ∧ (move stub [A, B, amount]).2.State B
          = some (Itoa (wrapInt ((if vb.data.head? = some '-' then minInt else maxInt) + x))))
    := by
  have hxr : inIntRange x := by
    have h := Atoi_inIntRange amount
    rw [hX] at h
    exact h
  rw [move_run stub A B amount va vb x hA hB hX hok]
  refine ⟨rfl, ?_, ?_, ?_, not_isDecimal_of_syntax, ?_, ?_⟩
  rotate_left 3
  · intro h
    refine ⟨Atoi_range_value va h, ?_⟩
    rw [← Atoi_range_value va h]
    simp [hAB]
  · intro h
    refine ⟨Atoi_range_value vb h, ?_⟩
    rw [← Atoi_range_value vb h]
    simp
  · intro h
    simp [hAB, Atoi_syntax_value va h]
  · intro h
    have hw : wrapInt (0 + x) = 0 + x := wrapInt_of_inIntRange _ (by simpa using hxr)
    simp only [Atoi_syntax_value vb h, hw]
    simp
  · intro hne
    apply wrapInt_of_inIntRange
    obtain ⟨hlo, hhi⟩ := hxr
    unfold inIntRange
    unfold minInt maxInt at *
    omega

/-- C18, witness: `a` holds `abc` and `b` holds 200; the payment of 30 leaves -30 under `a`.
Then `b` holds `abc`; the payment of 30 leaves 30 under `b`. Then `a` holds the digits of
`2^63`, one above the largest `int`: the payment of 1 leaves the largest `int` minus 1. Then `b`
holds the digits of `-2^63 - 1`: the payment of 1 leaves the smallest `int` plus 1. -/
theorem move_malformed_balance_witness :
    (move (sampleStub "abc" "200") ["a", "b", "30"]).1 = shim.Success none
    ∧ (move (sampleStub "abc" "200") ["a", "b", "30"]).2.State "a"
        = some (Itoa (wrapInt (0 - 30)))
    ∧ Itoa (wrapInt (0 - 30)) = "-30"
    ∧ (move (sampleStub "100" "abc") ["a", "b", "30"]).2.State "b" = some (Itoa (0 + 30))
    ∧ Itoa (0 + 30) = "30"
    ∧ (move (sampleStub "9223372036854775808" "200") ["a", "b", "1"]).2.State "a"
        = some (Itoa (wrapInt
            ((if "9223372036854775808".data.head? = some '-' then minInt else maxInt) - 1)))
    ∧ Itoa (wrapInt
          ((if "9223372036854775808".data.head? = some '-' then minInt else maxInt) - 1))
        = "9223372036854775806"
    ∧ (move (sampleStub "100" "-9223372036854775809") ["a", "b", "1"]).2.State "b"
        = some (Itoa (wrapInt
            ((if "-9223372036854775809".data.head? = some '-' then minInt else maxInt) + 1)))
    ∧ Itoa (wrapInt
          ((if "-9223372036854775809".data.head? = some '-' then minInt else maxInt) + 1))
        = "-9223372036854775807" :=
  ⟨(move_malformed_balance (sampleStub "abc" "200") "a" "b" "30" "abc" "200" 30 (by decide)
      (by decide) (by decide) (by decide) (fun _ _ => rfl)).1,
    (move_malformed_balance (sampleStub "abc" "200") "a" "b" "30" "abc" "200" 30 (by decide)
      (by decide) (by decide) (by decide) (fun _ _ => rfl)).2.1 (by decide),
    by decide,
    (move_malformed_balance (sampleStub "100" "abc") "a" "b" "30" "100" "abc" 30 (by decide)
      (by decide) (by decide) (by decide) (fun _ _ => rfl)).2.2.1 (by decide),
    by decide,
    ((move_malformed_balance (sampleStub "9223372036854775808" "200") "a" "b" "1"
      "9223372036854775808" "200" 1 (by decide) (by decide) (by decide) (by decide)
      (fun _ _ => rfl)).2.2.2.2.2.1 (by decide)).2,
    by decide,
    ((move_malformed_balance (sampleStub "100" "-9223372036854775809") "a" "b" "1"
      "100" "-9223372036854775809" 1 (by decide) (by decide) (by decide) (by decide)
      (fun _ _ => rfl)).2.2.2.2.2.2 (by decide)).2,
    by decide⟩

/-- C18, counterexample: `a` holds `99999999999999999999x`, which is not syntactically a base-10
integer and which `strconv.Atoi` rejects, with a range error and the largest `int` as value: the
digits leave the `uint64` range before the `x` is looked at. The payment of 1 to `b` succeeds
and leaves 9223372036854775806 under `a`, not the decimal encoding of `0 - 1`. -/
theorem move_range_error_counterexample :
    (sampleStub "99999999999999999999x" "200").succeeds 4
    ∧ "a" ≠ "b"
    ∧ (sampleStub "99999999999999999999x" "200").State "a" = some "99999999999999999999x"
    ∧ (sampleStub "99999999999999999999x" "200").State "b" = some "200"
    ∧ isDecimal "99999999999999999999x" = false
    ∧ Atoi "99999999999999999999x" = (maxInt, some NumError.ErrRange)
    ∧ Atoi "1" = (1, none)
    ∧ (move (sampleStub "99999999999999999999x" "200") ["a", "b", "1"]).1 = shim.Success none
    ∧ (move (sampleStub "99999999999999999999x" "200") ["a", "b", "1"]).2.State "a"
        = some "9223372036854775806"
    ∧ (move (sampleStub "99999999999999999999x" "200") ["a", "b", "1"]).2.State "a"
        ≠ some (Itoa (0 - 1)) :=
  ⟨fun _ _ => rfl, by decide⟩

/-! ## The account-balance invariant -/

theorem Itoa_valid (z : Int) (h : inIntRange z) : validEncoding (Itoa z) := by
  unfold validEncoding
  rw [Atoi_Itoa z h]

theorem PutState_valid (stub : ChaincodeStub) (key value : String)
    (h : balancesValid stub.State) (hv : validEncoding value) :
    balancesValid (stub.PutState key value).2.State := by
  simp only [PutState]
  split
  · exact h
  · intro k v hk
    simp only [] at hk
    split at hk
    · simp only [Option.some.injEq] at hk
      rw [← hk]; exact hv
    · exact h k v hk

theorem DelState_valid (stub : ChaincodeStub) (key : String) (h : balancesValid stub.State) :
    balancesValid (stub.DelState key).2.State := by
  simp only [DelState]
  split
  · exact h
  · intro k v hk
    simp only [] at hk
    split at hk
    · exact absurd hk (by simp)
    · exact h k v hk

theorem GetState_valid (stub : ChaincodeStub) (key : String) (h : balancesValid stub.State) :
    balancesValid (stub.GetState key).2.State := by
  rw [GetState_State]; exact h

/-- Whatever its arguments and whatever the run, `move` keeps the balances valid. -/
theorem move_valid (stub : ChaincodeStub) (args : List String) (h : balancesValid stub.State) :
    balancesValid (move stub args).2.State := by
  unfold move
  split
  · rename_i A B amount
    rcases h1 : stub.GetState A with ⟨r1, s1⟩
    have e1 : balancesValid s1.State := by
      have := GetState_valid stub A h
      rwa [h1] at this
    rcases r1 with _ | _ | va
    · exact e1
    · exact e1
    · simp only []
      rcases h2 : s1.GetState B with ⟨r2, s2⟩
      have e2 : balancesValid s2.State := by
        have := GetState_valid s1 B e1
        rwa [h2] at this
      rcases r2 with _ | _ | vb
      · exact e2
      · exact e2
      · simp only []
        rcases hX : Atoi amount with ⟨X, _ | err⟩
        · simp only []
          rcases h3 : s2.PutState A (Itoa (wrapInt ((Atoi va).1 - X))) with ⟨r3, s3⟩
          have e3 : balancesValid s3.State := by
            have := PutState_valid s2 A _ e2 (Itoa_valid _ (wrapInt_inIntRange ((Atoi va).1 - X)))
            rwa [h3] at this
          rcases r3 with _ | e
          · simp only []
            rcases h4 : s3.PutState B (Itoa (wrapInt ((Atoi vb).1 + X))) with ⟨r4, s4⟩
            have e4 : balancesValid s4.State := by
              have := PutState_valid s3 B _ e3
                (Itoa_valid _ (wrapInt_inIntRange ((Atoi vb).1 + X)))
              rwa [h4] at this
            rcases r4 with _ | e <;> exact e4
          · exact e3
        · exact e2
  · exact h

/-- Whatever its arguments and whatever the run, `Init` keeps the balances valid. -/
theorem Init_valid (stub : ChaincodeStub) (h : balancesValid stub.State) :
    balancesValid (Init stub).2.State := by
  unfold Init
  simp only []
  generalize stub.GetFunctionAndParameters.2 = args
  rcases args[0]? with _ | A
  · exact h
  · simp only []
    rcases args[1]? with _ | a
    · exact h
    · simp only []
      rcases ha : Atoi a with ⟨va, _ | err⟩
      · simp only []
        rcases args[2]? with _ | B
        · exact h
        · simp only []
          rcases args[3]? with _ | b
          · exact h
          · simp only []
            rcases hb : Atoi b with ⟨vb, _ | err⟩
            · simp only []
              have hva : inIntRange va := by
                have := Atoi_inIntRange a
                rwa [ha] at this
              have hvb : inIntRange vb := by
                have := Atoi_inIntRange b
                rwa [hb] at this
              rcases h3 : stub.PutState A (Itoa va) with ⟨r3, s3⟩
              have e3 : balancesValid s3.State := by
                have := PutState_valid stub A _ h (Itoa_valid _ hva)
                rwa [h3] at this
              rcases r3 with _ | e
              · simp only []
                rcases h4 : s3.PutState B (Itoa vb) with ⟨r4, s4⟩
                have e4 : balancesValid s4.State := by
                  have := PutState_valid s3 B _ e3 (Itoa_valid _ hvb)
                  rwa [h4] at this
                rcases r4 with _ | e <;> exact e4
              · exact e3
            · exact h
      · exact h

/-- C14, as amended: starting from any ledger in which every present key holds a valid base-10
integer encoding, every application of `Init`, of `move` and of `delete`, successful or not and
on any arguments, and every application of `write` whose value is itself a valid base-10
integer encoding, yields a ledger in which every present key still holds a valid base-10
integer encoding. -/
theorem balances_stay_valid (stub : ChaincodeStub) (h : balancesValid stub.State) :
    balancesValid (Init stub).2.State
    ∧ (∀ args : List String, balancesValid (move stub args).2.State)
    ∧ (∀ args : List String, balancesValid (delete stub args).2.State)
    ∧ (∀ key v : String, validEncoding v → balancesValid (write stub [key, v]).2.State) := by
  refine ⟨Init_valid stub h, fun args => move_valid stub args h, ?_, ?_⟩
  · intro args
    unfold delete
    split
    · rename_i A
      rcases h1 : stub.DelState A with ⟨r, s1⟩
      have e1 : balancesValid s1.State := by
        have := DelState_valid stub A h
        rwa [h1] at this
      rcases r with _ | e <;> exact e1
    · exact h
  · intro key v hv
    simp only [write]
    rcases h1 : stub.PutState key v with ⟨r, s1⟩
    have e1 : balancesValid s1.State := by
      have := PutState_valid stub key v h hv
      rwa [h1] at this
    rcases r with _ | e <;> exact e1

theorem sampleStub_valid : balancesValid (sampleStub "100" "200").State := by
  intro k v hk
  simp only [sampleStub] at hk
  split at hk
  · simp only [Option.some.injEq] at hk
    rw [← hk]; decide
  · split at hk
    · simp only [Option.some.injEq] at hk
      rw [← hk]; decide
    · exact absurd hk (by simp)

/-- C14, witness: on the ledger with 100 under `a` and 200 under `b`, `Init ["c", "7", "b", "2"]`,
a payment of 30, the deletion of `a`, and the write of `-5` over `a` keep the balances valid. -/
theorem balances_stay_valid_witness :
    balancesValid
      (Init { sampleStub "100" "200" with Args := ["init", "c", "7", "b", "2"] }).2.State
    ∧ (Init { sampleStub "100" "200" with Args := ["init", "c", "7", "b", "2"] }).2.State "c"
        = some "7"
    ∧ balancesValid (move (sampleStub "100" "200") ["a", "b", "30"]).2.State
    ∧ balancesValid (delete (sampleStub "100" "200") ["a"]).2.State
    ∧ balancesValid (write (sampleStub "100" "200") ["a", "-5"]).2.State :=
  ⟨(balances_stay_valid { sampleStub "100" "200" with Args := ["init", "c", "7", "b", "2"] }
      sampleStub_valid).1,
    by decide,
    (balances_stay_valid (sampleStub "100" "200") sampleStub_valid).2.1 ["a", "b", "30"],
    (balances_stay_valid (sampleStub "100" "200") sampleStub_valid).2.2.1 ["a"],
    (balances_stay_valid (sampleStub "100" "200") sampleStub_valid).2.2.2 "a" "-5"
      (by decide)⟩

/-- C14, counterexample: on the ledger with 100 under `a` and 200 under `b`, where every present
key holds a valid encoding, `write ["a", "abc"]` succeeds and leaves `abc` under `a`, which
`strconv.Atoi` rejects: the balances are no longer all valid. -/
theorem write_breaks_valid_counterexample :
    balancesValid (sampleStub "100" "200").State
    ∧ (write (sampleStub "100" "200") ["a", "abc"]).1 = shim.Success none
    ∧ (write (sampleStub "100" "200") ["a", "abc"]).2.State "a" = some "abc"
    ∧ ¬ validEncoding "abc"
    ∧ ¬ balancesValid (write (sampleStub "100" "200") ["a", "abc"]).2.State :=
  ⟨sampleStub_valid, by decide, by decide, by decide,
    fun h => absurd (h "a" "abc" (by decide)) (by decide)⟩



/-! ## Decoding factor records -/

/-- Sample runs of the decoder: a full record, member names in other cases, escapes, a value
that is no object, bytes that are no JSON text, and mismatches of type that leave the other
members decoded. -/
theorem json_samples :
    json.Unmarshal sampleFactorJSON Factor.zero
      = ({ Address := "X", Email := "e", Type_ := "pin", Payload := ["1"] }, none)
    ∧ json.Unmarshal "\x7b \"Address\" : \"\\u0041\\n\", \"other\": [1, \x7b\"a\": null\x7d] \x7d"
        Factor.zero = ({ Address := "A\n", Email := "", Type_ := "", Payload := [] }, none)
    ∧ (json.Unmarshal "[1, 2]" Factor.zero).1 = Factor.zero
    ∧ (json.Unmarshal "[1, 2]" Factor.zero).2 ≠ none
    ∧ json.Unmarshal "null" Factor.zero = (Factor.zero, none)
    ∧ json.Unmarshal "\x7b\"address\":\"X\"" Factor.zero = (Factor.zero, some json.malformed)
    ∧ json.Unmarshal "\x7b\"address\":\"X\",\x7d" Factor.zero
      = (Factor.zero, some json.malformed)
    ∧ (json.Unmarshal "\x7b\"address\":5,\"email\":\"e\"\x7d" Factor.zero).1
      = { Address := "", Email := "e", Type_ := "", Payload := [] }
    ∧ (json.Unmarshal "\x7b\"address\":5,\"email\":\"e\"\x7d" Factor.zero).2 ≠ none
    ∧ (json.Unmarshal "\x7b\"payload\":[\"a\",1,\"b\"],\"address\":\"X\"\x7d" Factor.zero).1
      = { Address := "X", Email := "", Type_ := "", Payload := ["a", "", "b"] }
    ∧ (json.Unmarshal "\x7b\"payload\":[\"a\",1,\"b\"],\"address\":\"X\"\x7d" Factor.zero).2
      ≠ none := by
  decide

theorem saveError_sameRecord (st : json.DecodeState) (msg : String) :
    json.sameRecord (json.saveError st msg) st := by
  unfold json.saveError json.sameRecord
  split <;> exact ⟨rfl, rfl, rfl, rfl⟩

theorem saveError_err (st : json.DecodeState) (msg : String) :
    (json.saveError st msg).err ≠ none := by
  unfold json.saveError
  split
  · simp
  · rename_i e h
    rw [h]; simp

/-- The error saved has no influence on what a token does to the record, the depth, the member
name awaited and the array collected. -/
theorem decodeStep_sameRecord (st1 st2 : json.DecodeState) (t : json.Token)
    (h : json.sameRecord st1 st2) :
    json.sameRecord (json.decodeStep st1 t) (json.decodeStep st2 t) := by
  obtain ⟨f1, e1, d1, k1, p1⟩ := st1
  obtain ⟨f2, e2, d2, k2, p2⟩ := st2
  obtain ⟨hf, hd, hk, hp⟩ := h
  simp only [] at hf hd hk hp
  subst hf hd hk hp
  cases t <;> cases k1 <;> cases p1 <;> cases e1 <;> cases e2 <;>
    simp only [json.decodeStep, json.memberScalar, json.saveError, json.sameRecord] <;>
    (repeat' split) <;> simp_all

theorem foldl_sameRecord (ts : List json.Token) (st1 st2 : json.DecodeState)
    (h : json.sameRecord st1 st2) :
    json.sameRecord (ts.foldl json.decodeStep st1) (ts.foldl json.decodeStep st2) := by
  induction ts generalizing st1 st2 with
  | nil => exact h
  | cons t ts ih => exact ih _ _ (decodeStep_sameRecord st1 st2 t h)

/-- An error once saved stays saved. -/
theorem decodeStep_err (st : json.DecodeState) (t : json.Token) (h : st.err ≠ none) :
    (json.decodeStep st t).err ≠ none := by
  obtain ⟨f, e, d, k, p⟩ := st
  simp only [] at h
  obtain ⟨msg, rfl⟩ := Option.ne_none_iff_exists'.mp h
  cases t <;> cases k <;> cases p <;>
    simp only [json.decodeStep, json.memberScalar, json.saveError] <;>
    (repeat' split) <;> simp_all

theorem foldl_err (ts : List json.Token) (st : json.DecodeState) (h : st.err ≠ none) :
    (ts.foldl json.decodeStep st).err ≠ none := by
  induction ts generalizing st with
  | nil => exact h
  | cons t ts ih => exact ih _ (decodeStep_err st t h)

/-- Inside a value that is being skipped, a token moves the depth and nothing else. -/
theorem decodeStep_deep (st : json.DecodeState) (t : json.Token) (hd : 2 ≤ st.depth)
    (hp : st.payload = none) :
    json.decodeStep st t
      = { st with depth :=
            match t with
            | json.Token.beginObject => st.depth + 1
            | json.Token.beginArray => st.depth + 1
            | json.Token.endObject => st.depth - 1
            | json.Token.endArray => st.depth - 1
            | _ => st.depth } := by
  obtain ⟨f, e, d, k, p⟩ := st
  simp only [] at hd hp
  subst hp
  have h1 : ¬ d = 1 := by omega
  cases t <;> simp only [json.decodeStep, h1, if_false] <;> (repeat' split) <;> rfl

theorem foldl_closes (seg : List json.Token) (d : Nat) (st : json.DecodeState)
    (hd : st.depth = d + 1) (hp : st.payload = none) (hc : json.closes d seg = true) :
    seg.foldl json.decodeStep st = { st with depth := 1 } := by
  induction seg generalizing d st with
  | nil =>
    simp only [json.closes, decide_eq_true_eq] at hc
    subst hc
    obtain ⟨f, e, d, k, p⟩ := st
    simp only [] at hd
    subst hd
    rfl
  | cons t ts ih =>
    cases d with
    | zero => simp [json.closes] at hc
    | succ d =>
      simp only [List.foldl_cons]
      rw [decodeStep_deep st t (by omega) hp]
      cases t <;> simp only [json.closes] at hc
      all_goals exact (ih _ _ (by simp only []; omega) hp hc)

/-- A member whose value is of a kind that does not fit its field is skipped: after its name,
its colon and the tokens of its value the decoder is where it was before the member, with an
error saved. -/
theorem member_skipped (st : json.DecodeState) (k : String) (f : json.Field)
    (v : List json.Token) (hst : json.atMemberStart st) (hf : json.fieldOf k = some f)
    (hm : json.mismatched f v = true) :
    ∃ msg, (json.Token.str k :: json.Token.colon :: v).foldl json.decodeStep st
      = json.saveError st msg := by
  obtain ⟨fa, e, d, key, p⟩ := st
  obtain ⟨hd, hk, hp⟩ := hst
  simp only [] at hd hk hp
  subst hd hk hp
  unfold json.mismatched at hm
  split at hm
  · refine ⟨json.typeError "number" (if f = json.Field.Payload then "payload" else f.name)
      (if f = json.Field.Payload then "[]string" else "string"), ?_⟩
    cases f <;> cases e <;> simp [json.decodeStep, json.memberScalar, json.saveError, hf]
  · refine ⟨json.typeError "bool" (if f = json.Field.Payload then "payload" else f.name)
      (if f = json.Field.Payload then "[]string" else "string"), ?_⟩
    cases f <;> cases e <;> simp [json.decodeStep, json.memberScalar, json.saveError, hf]
  · simp only [decide_eq_true_eq] at hm
    subst hm
    refine ⟨json.typeError "string" "payload" "[]string", ?_⟩
    cases e <;> simp [json.decodeStep, json.memberScalar, json.saveError, hf]
  · rename_i inner
    refine ⟨json.typeError "object" (if f = json.Field.Payload then "payload" else f.name)
      (if f = json.Field.Payload then "[]string" else "string"), ?_⟩
    simp only [List.foldl_cons]
    have h1 : json.decodeStep (json.decodeStep (json.decodeStep
          { factor := fa, err := e, depth := 1, key := none, payload := none }
          (json.Token.str k)) json.Token.colon) json.Token.beginObject
        = { json.saveError { factor := fa, err := e, depth := 1, key := none, payload := none }
              (json.typeError "object" (if f = json.Field.Payload then "payload" else f.name)
                (if f = json.Field.Payload then "[]string" else "string")) with depth := 2 } := by
      cases f <;> cases e <;> simp [json.decodeStep, json.saveError, hf]
    rw [h1, foldl_closes inner 1 _ rfl (by cases e <;> rfl) hm]
    cases e <;> rfl
  · rename_i inner
    simp only [Bool.and_eq_true, decide_eq_true_eq] at hm
    obtain ⟨hne, hc⟩ := hm
    refine ⟨json.typeError "array" f.name "string", ?_⟩
    simp only [List.foldl_cons]
    have h1 : json.decodeStep (json.decodeStep (json.decodeStep
          { factor := fa, err := e, depth := 1, key := none, payload := none }
          (json.Token.str k)) json.Token.colon) json.Token.beginArray
        = { json.saveError { factor := fa, err := e, depth := 1, key := none, payload := none }
              (json.typeError "array" f.name "string") with depth := 2 } := by
      cases f <;> cases e <;> simp [json.decodeStep, json.saveError, hf] at hne ⊢
    rw [h1, foldl_closes inner 1 _ rfl (by cases e <;> rfl) hc]
    cases e <;> rfl
  · exact absurd hm (by simp)

/-- Go's decoder skips a mismatched member and goes on: for a well-formed object text whose
tokens hold, at the start of a member of the top-level object, a member whose value is of a
kind that does not fit its field, `json.Unmarshal` returns an error and leaves the record that
the tokens of the other members decode to. -/
theorem Unmarshal_skips_mismatch (s : String) (factor : Factor) (pre post v : List json.Token)
    (k : String) (f : json.Field)
    (ht : json.tokens s
      = some (json.Token.beginObject
          :: (pre ++ (json.Token.str k :: json.Token.colon :: v) ++ post)))
    (hg : json.checkValid s = true)
    (hpos : json.atMemberStart (json.afterTokens factor pre))
    (hf : json.fieldOf k = some f) (hm : json.mismatched f v = true) :
    (json.Unmarshal s factor).1 = (json.afterTokens factor (pre ++ post)).factor
    ∧ (json.Unmarshal s factor).2 ≠ none := by
  unfold json.checkValid at hg
  rw [ht] at hg
  simp only [] at hg
  unfold json.Unmarshal
  rw [ht]
  simp only [hg, if_true, json.decode]
  obtain ⟨msg, hskip⟩ := member_skipped (json.afterTokens factor pre) k f v hpos hf hm
  have hrun : json.afterTokens factor
        (pre ++ (json.Token.str k :: json.Token.colon :: v) ++ post)
      = post.foldl json.decodeStep (json.saveError (json.afterTokens factor pre) msg) := by
    unfold json.afterTokens at hskip ⊢
    rw [List.foldl_append, List.foldl_append, hskip]
  have hrest : json.afterTokens factor (pre ++ post)
      = post.foldl json.decodeStep (json.afterTokens factor pre) := by
    unfold json.afterTokens
    rw [List.foldl_append]
  rw [hrun, hrest]
  exact ⟨(foldl_sameRecord post _ _ (saveError_sameRecord _ msg)).1,
    foldl_err post _ (saveError_err _ msg)⟩

/-- Bytes that are not a JSON object, whether malformed or a JSON value of another kind, leave
the record as it was. -/
theorem Unmarshal_not_object (s : String) (factor : Factor) (h : json.isObject s = false) :
    (json.Unmarshal s factor).1 = factor := by
  unfold json.Unmarshal
  unfold json.isObject json.checkValid at h
  rcases ht : json.tokens s with _ | ts
  · rfl
  · rw [ht] at h
    simp only [] at h ⊢
    by_cases hg : json.grammar ts json.Expect.value [] = true
    · rw [hg] at h
      rw [if_pos hg]
      simp only [Bool.true_and] at h
      unfold json.decode
      split at h
      · exact absurd h (by simp)
      · rename_i hno
        split
        · rename_i rest
          exact absurd rfl (hno rest)
        all_goals rfl
    · rw [if_neg hg]

theorem Unmarshal_malformed (s : String) (factor : Factor) (h : json.checkValid s = false) :
    json.Unmarshal s factor = (factor, some json.malformed) := by
  unfold json.Unmarshal
  unfold json.checkValid at h
  rcases ht : json.tokens s with _ | ts
  · rfl
  · rw [ht] at h
    simp only [] at h ⊢
    rw [if_neg (by simp [h])]

/-- C15, as amended: for every single-argument input `s`, whatever the decoder, when the put
succeeds `storeFactor [s]` persists exactly the bytes of `s` under the address field of the
record that decoding leaves behind. With `json.Unmarshal` as decoder that record is still the
zero record, and the key the empty string, whenever `s` is not a JSON object (not well-formed
JSON, in which case the decoder reports the malformed text, or a JSON value of another kind).
When `s` is a well-formed object with a member, at its top level, whose value is of a kind that
does not fit its field (a non-list payload, say), decoding fails, but only that member is
skipped: the record left behind is the one that the tokens of the other members decode to, and
its address is the key. So a well-formed object made of an address member with the string `X`
and one such mismatched member is stored under `X`. -/
theorem storeFactor_key (unmarshal : Unmarshal) (stub : ChaincodeStub) (s : String)
    (hok : stub.succeeds 1) :
    (storeFactor unmarshal stub [s]).1 = shim.Success none
    ∧ (storeFactor unmarshal stub [s]).2.State (unmarshal s Factor.zero).1.Address = some s
    ∧ (storeFactor unmarshal stub [s]).2.calls
        = stub.calls ++ [LedgerCall.put (unmarshal s Factor.zero).1.Address s]
    ∧ (json.isObject s = false →
        (json.Unmarshal s Factor.zero).1 = Factor.zero
        ∧ (storeFactor json.Unmarshal stub [s]).2.State "" = some s
        ∧ (storeFactor json.Unmarshal stub [s]).2.calls = stub.calls ++ [LedgerCall.put "" s])
    ∧ (json.checkValid s = false →
        json.isObject s = false
        ∧ json.Unmarshal s Factor.zero = (Factor.zero, some json.malformed))
    ∧ (∀ (pre post v : List json.Token) (k : String) (f : json.Field),
        json.tokens s
          = some (json.Token.beginObject
              :: (pre ++ (json.Token.str k :: json.Token.colon :: v) ++ post)) →
        json.checkValid s = true →
        json.atMemberStart (json.afterTokens Factor.zero pre) →
        json.fieldOf k = some f → json.mismatched f v = true →
        (json.Unmarshal s Factor.zero).2 ≠ none
        ∧ (json.Unmarshal s Factor.zero).1 = (json.afterTokens Factor.zero (pre ++ post)).factor
        ∧ (storeFactor json.Unmarshal stub [s]).2.State
            (json.afterTokens Factor.zero (pre ++ post)).factor.Address = some s)
    ∧ (∀ (ka X k : String) (f : json.Field) (v : List json.Token),
        json.tokens s
          = some (json.Token.beginObject :: json.Token.str ka :: json.Token.colon
              :: json.Token.str X :: json.Token.comma :: json.Token.str k :: json.Token.colon
              :: (v ++ [json.Token.endObject])) →
        json.checkValid s = true →
        json.fieldOf ka = some json.Field.Address →
        json.fieldOf k = some f → json.mismatched f v = true →
        (json.Unmarshal s Factor.zero).2 ≠ none
        ∧ (json.Unmarshal s Factor.zero).1.Address = X
        ∧ (storeFactor json.Unmarshal stub [s]).2.State X = some s
        ∧ (storeFactor json.Unmarshal stub [s]).2.calls = stub.calls ++ [LedgerCall.put X s])
    := by
  have h0 := succeeds_zero stub 0 hok
  have hrun : ∀ u : Unmarshal, storeFactor u stub [s]
      = (shim.Success none,
          { stub with
            State := fun k => if k = (u s Factor.zero).1.Address then some s else stub.State k
            calls := stub.calls ++ [LedgerCall.put (u s Factor.zero).1.Address s] }) := by
    intro u
    simp [storeFactor, PutState, nextFault, h0]
  refine ⟨by rw [hrun], by rw [hrun]; simp, by rw [hrun], ?_, ?_, ?_, ?_⟩
  · intro h
    have hz := Unmarshal_not_object s Factor.zero h
    refine ⟨hz, ?_, ?_⟩
    · rw [hrun, hz]; simp [Factor.zero]
    · rw [hrun, hz]; simp [Factor.zero]
  · intro h
    refine ⟨?_, Unmarshal_malformed s Factor.zero h⟩
    simp [json.isObject, h]
  · intro pre post v k f ht hg hpos hf hm
    obtain ⟨h1, h2⟩ := Unmarshal_skips_mismatch s Factor.zero pre post v k f ht hg hpos hf hm
    refine ⟨h2, h1, ?_⟩
    rw [hrun, h1]
    simp
  · intro ka X k f v ht hg hfa hf hm
    have ht2 : json.tokens s
        = some (json.Token.beginObject
            :: ([json.Token.str ka, json.Token.colon, json.Token.str X, json.Token.comma]
              ++ (json.Token.str k :: json.Token.colon :: v) ++ [json.Token.endObject])) := by
      rw [ht]; simp
    have hpos : json.atMemberStart (json.afterTokens Factor.zero
        [json.Token.str ka, json.Token.colon, json.Token.str X, json.Token.comma]) := by
      simp [json.atMemberStart, json.afterTokens, json.start, json.decodeStep,
        json.memberScalar, hfa]
    obtain ⟨h1, h2⟩ := Unmarshal_skips_mismatch s Factor.zero _ _ v k f ht2 hg hpos hf hm
    have hX : (json.Unmarshal s Factor.zero).1.Address = X := by
      rw [h1]
      simp [json.afterTokens, json.start, json.decodeStep, json.memberScalar, hfa,
        json.setString]
    refine ⟨h2, hX, ?_, ?_⟩
    · rw [hrun, hX]; simp
    · rw [hrun, hX]

/-- C15, witness: the bytes `not json` are stored under the empty key; the object
`mismatchFactorJSON`, an address `X` followed by a payload that is a number, fails to decode and
is stored under `X`. -/
theorem storeFactor_key_witness :
    (storeFactor json.Unmarshal (emptyStub "storeFactor" ["not json"]) ["not json"]).1
        = shim.Success none
    ∧ (storeFactor json.Unmarshal (emptyStub "storeFactor" ["not json"]) ["not json"]).2.State
        (json.Unmarshal "not json" Factor.zero).1.Address = some "not json"
    ∧ (json.Unmarshal "not json" Factor.zero).1 = Factor.zero
    ∧ (storeFactor json.Unmarshal (emptyStub "storeFactor" ["not json"]) ["not json"]).2.State ""
        = some "not json"
    ∧ json.Unmarshal "not json" Factor.zero = (Factor.zero, some json.malformed)
    ∧ ((json.Unmarshal mismatchFactorJSON Factor.zero).2 ≠ none
      ∧ (json.Unmarshal mismatchFactorJSON Factor.zero).1
          = (json.afterTokens Factor.zero
              ([json.Token.str "address", json.Token.colon, json.Token.str "X",
                json.Token.comma] ++ [json.Token.endObject])).factor
      ∧ (storeFactor json.Unmarshal (emptyStub "storeFactor" []) [mismatchFactorJSON]).2.State
          (json.afterTokens Factor.zero
            ([json.Token.str "address", json.Token.colon, json.Token.str "X",
              json.Token.comma] ++ [json.Token.endObject])).factor.Address
          = some mismatchFactorJSON)
    ∧ ((json.Unmarshal mismatchFactorJSON Factor.zero).2 ≠ none
      ∧ (json.Unmarshal mismatchFactorJSON Factor.zero).1.Address = "X"
      ∧ (storeFactor json.Unmarshal (emptyStub "storeFactor" []) [mismatchFactorJSON]).2.State
          "X" = some mismatchFactorJSON
      ∧ (storeFactor json.Unmarshal (emptyStub "storeFactor" []) [mismatchFactorJSON]).2.calls
          = (emptyStub "storeFactor" []).calls ++ [LedgerCall.put "X" mismatchFactorJSON]) :=
  have h := storeFactor_key json.Unmarshal (emptyStub "storeFactor" ["not json"]) "not json"
    (fun _ _ => rfl)
  have hm := storeFactor_key json.Unmarshal (emptyStub "storeFactor" []) mismatchFactorJSON
    (fun _ _ => rfl)
  ⟨h.1, h.2.1, (h.2.2.2.1 (by decide)).1, (h.2.2.2.1 (by decide)).2.1,
    (h.2.2.2.2.1 (by decide)).2,
    hm.2.2.2.2.2.1
      [json.Token.str "address", json.Token.colon, json.Token.str "X", json.Token.comma]
      [json.Token.endObject] [json.Token.number] "payload" json.Field.Payload
      (by decide) (by decide) (by decide) (by decide) (by decide),
    hm.2.2.2.2.2.2 "address" "X" "payload" json.Field.Payload [json.Token.number]
      (by decide) (by decide) (by decide) (by decide) (by decide)⟩

/-- C15, counterexample: the argument `mismatchFactorJSON` is well-formed JSON whose payload is
a number, not a list. Decoding it into a `Factor` fails with a type mismatch, yet the address
`X` has been decoded: `storeFactor` stores the argument under the key `X`, and nothing under the
empty key. -/
theorem storeFactor_mismatch_counterexample :
    (emptyStub "storeFactor" [mismatchFactorJSON]).succeeds 1
    ∧ json.checkValid mismatchFactorJSON = true
    ∧ (json.Unmarshal mismatchFactorJSON Factor.zero).1
      = { Address := "X", Email := "", Type_ := "", Payload := [] }
    ∧ (json.Unmarshal mismatchFactorJSON Factor.zero).2 ≠ none
    ∧ (storeFactor json.Unmarshal (emptyStub "storeFactor" [mismatchFactorJSON])
        [mismatchFactorJSON]).1 = shim.Success none
    ∧ (storeFactor json.Unmarshal (emptyStub "storeFactor" [mismatchFactorJSON])
        [mismatchFactorJSON]).2.State "X" = some mismatchFactorJSON
    ∧ (storeFactor json.Unmarshal (emptyStub "storeFactor" [mismatchFactorJSON])
        [mismatchFactorJSON]).2.State "" = none
    ∧ (storeFactor json.Unmarshal (emptyStub "storeFactor" [mismatchFactorJSON])
        [mismatchFactorJSON]).2.calls = [LedgerCall.put "X" mismatchFactorJSON] :=
  ⟨fun _ _ => rfl, by decide⟩

end ExampleCC
